import Mathlib

/-!
# The endpoint configuration service (`configCmd/config.go`)

A shallow embedding of the configuration store of the service: the identifier
pattern and its extraction, the in-memory map, the CSV persistence and the
REST handlers, followed by theorems about them.

Conventions of the embedding:

* a Go `string` is a Lean `String`; the regular expression engine works on its
  list of characters;
* a Go `error` result is an `Except String _` (or an `Option String` where only
  the error is returned); log output is not modelled;
* the Go map `Config` is an association list with unique keys (`AList`); the
  order in which `range` visits it is supplied from outside (`RangeOrder`),
  since Go leaves it unspecified;
* the CSV file is its text (`none` is a missing file); the text is produced and
  parsed by a model of the writer and the reader of `encoding/csv`.
-/

namespace Meow

deriving instance DecidableEq for Except

/-! ## Regular expressions (the fragment of Go's `regexp` the pattern uses) -/

/-- Syntax of the regular expressions needed for `endpointIdentifierPatternRaw`. -/
inductive Regex where
  /-- a literal character -/
  | char (c : Char)
  /-- a character class `[...]`: a union of inclusive ranges -/
  | cls (ranges : List (Char × Char))
  /-- concatenation -/
  | seq (r₁ r₂ : Regex)
  /-- greedy one-or-more repetition `r+` -/
  | plus (r : Regex)
  /-- a capturing group `(r)` -/
  | group (r : Regex)
  /-- the anchor `^` (beginning of text) -/
  | bol
  /-- the anchor `$` (end of text; no multi-line flag) -/
  | eol
  deriving Repr

/-- A position of the backtracking matcher: the offset into the text, the
unread rest of the text and the groups captured so far. -/
structure MState where
  pos : Nat
  rest : List Char
  caps : List (List Char)
  deriving Repr, DecidableEq

/-- Membership of a character in a class given by inclusive ranges. -/
def inClass (ranges : List (Char × Char)) (c : Char) : Bool :=
  ranges.any fun r => decide (r.1 ≤ c) && decide (c ≤ r.2)

/-- Read one character satisfying `p`. -/
def readChar (p : Char → Bool) (st : MState) : List MState :=
  match st.rest with
  | [] => []
  | x :: xs => if p x then [{ st with pos := st.pos + 1, rest := xs }] else []

/-- Greedy iteration of `step`, one or more times: after each round, first the
outcomes of going round again (only when the round consumed input), then the
outcome of stopping. The counter bounds the rounds; `Regex.run` starts it
above the length of the unread text, which no sequence of consuming rounds
exceeds. -/
def plusLoop (step : MState → List MState) : Nat → MState → List MState
  | 0, _ => []
  | n + 1, st =>
    (step st).flatMap fun st' =>
      (if st'.rest.length < st.rest.length then plusLoop step n st' else []) ++ [st']

/-- All ways the expression matches at a position, in order of preference
(leftmost-first, greedy). -/
def Regex.run : Regex → MState → List MState
  | .char c, st => readChar (fun x => x == c) st
  | .cls rs, st => readChar (inClass rs) st
  | .seq r₁ r₂, st => (Regex.run r₁ st).flatMap (Regex.run r₂)
  | .plus r, st => plusLoop (Regex.run r) (st.rest.length + 1) st
  | .group r, st =>
    (Regex.run r st).map fun st' =>
      { st' with caps := st'.caps ++ [st.rest.take (st'.pos - st.pos)] }
  | .bol, st => if st.pos = 0 then [st] else []
  | .eol, st => if st.rest = [] then [st] else []

/-- The slice `FindStringSubmatch` returns for a match that started at offset
`pos` with `rest` unread and ended in `st`: the matched text, then the groups. -/
def submatches (pos : Nat) (rest : List Char) (st : MState) : List String :=
  String.mk (rest.take (st.pos - pos)) :: st.caps.map String.mk

/-- The search of `FindStringSubmatch`: try the start offsets from left to
right, the end of the text included; the first offset with a match gives the
result. -/
def findFrom (re : Regex) : Nat → List Char → List String
  | pos, [] =>
    match (re.run { pos := pos, rest := [], caps := [] }).head? with
    | some st => submatches pos [] st
    | none => []
  | pos, c :: t =>
    match (re.run { pos := pos, rest := c :: t, caps := [] }).head? with
    | some st => submatches pos (c :: t) st
    | none => findFrom re (pos + 1) t

/-- Go's `(*Regexp).FindStringSubmatch`: the text of the leftmost match and of
its groups, or the empty slice when there is no match. -/
def Regex.FindStringSubmatch (re : Regex) (s : String) : List String :=
  findFrom re 0 s.data

/-- A literal string as a sequence of literal characters followed by `r`. -/
def Regex.lits (cs : List Char) (r : Regex) : Regex :=
  cs.foldr (fun c acc => .seq (.char c) acc) r

/-- The source of the pattern, as in the Go constant. -/
def endpointIdentifierPatternRaw : String := "^/endpoints/([a-z][-a-z0-9]+)$"

/-- The compiled pattern `^/endpoints/([a-z][-a-z0-9]+)$`. -/
def endpointIdentifierPattern : Regex :=
  .seq .bol
    (Regex.lits "/endpoints/".data
      (.seq
        (.group
          (.seq (.cls [('a', 'z')])
            (.plus (.cls [('-', '-'), ('a', 'z'), ('0', '9')]))))
        .eol))

/-- The function `extractEndpointIdentifier`: the first group of the match, or
an error when the pattern does not match. Indexing a non-empty slice without a
second element would panic; that case is an error here (it does not occur, the
pattern has a group). -/
def extractEndpointIdentifier (endpoint : String) : Except String String :=
  let matches_ := endpointIdentifierPattern.FindStringSubmatch endpoint
  match matches_ with
  | [] =>
    .error ("endpoint \"" ++ endpoint ++ "\" does not match pattern \"" ++
      endpointIdentifierPatternRaw ++ "\"")
  | [_] => .error "index out of range [1] with length 1"
  | _ :: g :: _ => .ok g

/-- A lowercase letter `a`..`z`. -/
def IsLowerLetter (c : Char) : Prop := 'a' ≤ c ∧ c ≤ 'z'

/-- A decimal digit `0`..`9`. -/
def IsDigit (c : Char) : Prop := '0' ≤ c ∧ c ≤ '9'

/-- The identifiers of the specification, `[a-z][-a-z0-9]+`: a lowercase letter
followed by one or more characters that are lowercase letters, digits or `-`. -/
def ValidIdentifier (id : String) : Prop :=
  ∃ c cs, id.data = c :: cs ∧ IsLowerLetter c ∧ cs ≠ [] ∧
    ∀ d ∈ cs, IsLowerLetter d ∨ IsDigit d ∨ d = '-'

/-- The texts the group `[a-z][-a-z0-9]+` matches in full (proof-side
characterisation in terms of the character classes). -/
def groupMatches : List Char → Bool
  | c :: d :: ds =>
    inClass [('a', 'z')] c && (d :: ds).all (inClass [('-', '-'), ('a', 'z'), ('0', '9')])
  | _ => false


/-! ## The endpoint record and its codec (package `meow`, outside `configCmd`) -/

/-- Modelled from the spec: the record type `meow.Endpoint`, whose declaration
is not part of `configCmd/config.go`. It has the six fields the handlers use:
identifier, target URL, method, expected status (an unsigned small integer),
polling frequency (a duration) and failure threshold (an unsigned count). The
types of the URL (`U`) and of the duration (`D`) are left open; the code only
renders them as strings. -/
structure Endpoint (U D : Type) where
  Identifier : String
  URL : U
  Method : String
  StatusOnline : Nat
  Frequency : D
  FailAfter : Nat
  deriving DecidableEq, Repr

/-- Modelled from the spec: the JSON projection `meow.EndpointPayload` of a
record, declared outside `configCmd/config.go`: the same six fields with the
URL and the frequency rendered as strings. -/
structure EndpointPayload where
  Identifier : String
  URL : String
  Method : String
  StatusOnline : Nat
  Frequency : String
  FailAfter : Nat
  deriving DecidableEq, Repr

/-- Modelled from the spec: the serialization contract of the record type,
which the configuration store takes as given. These functions are called by
`configCmd/config.go` and defined outside it; a failing call (a Go `error`) is
`none`. -/
structure Codec (U D : Type) where
  /-- the method `String` of the URL -/
  urlString : U → String
  /-- the method `String` of the duration -/
  durationString : D → String
  /-- the function `meow.EndpointFromJSON`: parse a request body -/
  EndpointFromJSON : String → Option (Endpoint U D)
  /-- the function `meow.EndpointFromRecord`: decode one CSV row -/
  EndpointFromRecord : List String → Option (Endpoint U D)
  /-- the method `JSON` of a record -/
  JSON : Endpoint U D → Option String
  /-- the call `json.Marshal` on a list of payloads -/
  Marshal : List EndpointPayload → Option String

/-- The call `strconv.Itoa(int(n))` on an unsigned value: its decimal digits. -/
def Itoa (n : Nat) : String := toString n

/-! ## The package `encoding/csv` of the Go standard library

The writer and the reader as `writeConfig` and `mustReadConfig` set them up:
comma as separator, no comment character, `FieldsPerRecord` 0, no `LazyQuotes`,
no `TrimLeadingSpace`, no `UseCRLF`. Text is a list of characters; the
characters the package looks for are ASCII, so this agrees with its work on
the bytes of UTF-8 text. -/

/-- The function `unicode.IsSpace`. -/
def isSpace (c : Char) : Bool :=
  c.toNat == 0x09 || c.toNat == 0x0a || c.toNat == 0x0b || c.toNat == 0x0c ||
  c.toNat == 0x0d || c.toNat == 0x20 || c.toNat == 0x85 || c.toNat == 0xa0 ||
  c.toNat == 0x1680 || (0x2000 ≤ c.toNat && c.toNat ≤ 0x200a) ||
  c.toNat == 0x2028 || c.toNat == 0x2029 || c.toNat == 0x202f ||
  c.toNat == 0x205f || c.toNat == 0x3000

/-- The method `fieldNeedsQuotes` of the writer. -/
def fieldNeedsQuotes (field : List Char) : Bool :=
  match field with
  | [] => false
  | r1 :: _ =>
    if field = ['\\', '.'] then true
    else if field.any (fun c => c == '\n' || c == '\r' || c == '"' || c == ',') then true
    else isSpace r1

/-- The body of a quoted field: every quote is doubled, every other character
(carriage return and line feed included, `UseCRLF` being off) is copied. -/
def escapeQuoted : List Char → List Char
  | [] => []
  | c :: cs => if c = '"' then '"' :: '"' :: escapeQuoted cs else c :: escapeQuoted cs

/-- One field as the writer writes it. -/
def writeField (field : List Char) : List Char :=
  if fieldNeedsQuotes field then '"' :: (escapeQuoted field ++ ['"']) else field

/-- The fields of a record with a comma before every field but the first. -/
def writeFields : List (List Char) → List Char
  | [] => []
  | [f] => writeField f
  | f :: g :: fs => writeField f ++ ',' :: writeFields (g :: fs)

/-- The method `Write` of the writer: the text added to the buffer for a record. -/
def Writer.Write (record : List String) : List Char :=
  writeFields (record.map String.data) ++ ['\n']

/-- The errors of the reader. -/
inductive CsvError where
  /-- the error `ErrBareQuote`: a quote in a field that is not quoted -/
  | ErrBareQuote
  /-- the error `ErrQuote`: an extraneous or missing quote in a quoted field -/
  | ErrQuote
  /-- the error `ErrFieldCount`: wrong number of fields -/
  | ErrFieldCount
  /-- not an error of the package: a loop counter of this model ran out (the
  counters start above the length of the text still to read) -/
  | exhausted
  deriving DecidableEq, Repr

/-- The call `ReadSlice` of the buffered input: the text up to and including
the first line feed (all of it when there is none), and the text after it. -/
def readSlice : List Char → List Char × List Char
  | [] => ([], [])
  | c :: cs => if c = '\n' then ([c], cs) else (c :: (readSlice cs).1, (readSlice cs).2)

/-- The function `lengthNL`: 1 if the line ends in a line feed, else 0. -/
def lengthNL (b : List Char) : Nat := if b.getLast? = some '\n' then 1 else 0

/-- The end of `readLine`: a line ending in carriage return and line feed ends
in a line feed only. -/
def normalizeCRLF (line : List Char) : List Char :=
  match line.reverse with
  | c :: d :: r => if c = '\n' ∧ d = '\r' then (c :: r).reverse else line
  | _ => line

/-- The result of `readLine`: the line, whether the input was at its end
(`io.EOF`), and the input still unread. -/
structure LineRead where
  line : List Char
  eof : Bool
  rest : List Char
  deriving DecidableEq, Repr

/-- The method `readLine` of the reader: the next line with its line feed.
When the input ends without a line feed the line is returned without error
and a carriage return at its end is dropped (a slice that ends in a carriage
return has not reached a line feed); `io.EOF` is returned only when nothing
was read. -/
def readLine (input : List Char) : LineRead :=
  let raw := (readSlice input).1
  if raw = [] then
    { line := [], eof := true, rest := (readSlice input).2 }
  else
    let line := if raw.getLast? = some '\r' then raw.dropLast else raw
    { line := normalizeCRLF line, eof := false, rest := (readSlice input).2 }

/-- The calls `bytes.IndexByte` and `bytes.IndexRune` as the reader uses them:
the text before the first occurrence of `c` and the text after it. -/
def cutAt (c : Char) : List Char → Option (List Char × List Char)
  | [] => Option.none
  | x :: xs =>
    if x = c then some ([], xs)
    else (cutAt c xs).map fun p => (x :: p.1, p.2)

/-- How a field ended: its text, the rest of the line when a comma followed
(`none` at the end of the record), and the input still unread. -/
abbrev FieldRead := List Char × Option (List Char) × List Char

/-- The loop of `readRecord` for a quoted field, after the opening quote:
`acc` is the text of the field so far, `line` the rest of the current line. -/
def readQuoted : Nat → List Char → List Char → List Char → Except CsvError FieldRead
  | 0, _, _, _ => .error .exhausted
  | fuel + 1, acc, line, input =>
    match cutAt '"' line with
    | some (pre, post) =>
      match post with
      | [] => .ok (acc ++ pre, Option.none, input)
      | rn :: post' =>
        if rn = '"' then readQuoted fuel (acc ++ pre ++ ['"']) post' input
        else if rn = ',' then .ok (acc ++ pre, some post', input)
        else if lengthNL post = post.length then .ok (acc ++ pre, Option.none, input)
        else .error .ErrQuote
    | Option.none =>
      if line ≠ [] then
        readQuoted fuel (acc ++ line) (readLine input).line (readLine input).rest
      else .error .ErrQuote

/-- The branch of `readRecord` for a field that is not quoted. -/
def readUnquoted (line input : List Char) : Except CsvError FieldRead :=
  match cutAt ',' line with
  | some (field, post) =>
    if '"' ∈ field then .error .ErrBareQuote else .ok (field, some post, input)
  | Option.none =>
    let field := line.take (line.length - lengthNL line)
    if '"' ∈ field then .error .ErrBareQuote else .ok (field, Option.none, input)

/-- One round of the loop `parseField`: a field that starts with a quote is
read as a quoted field, any other as it stands. -/
def readField (fuel : Nat) (line input : List Char) : Except CsvError FieldRead :=
  if line.head? = some '"' then readQuoted fuel [] line.tail input
  else readUnquoted line input

/-- The loop `parseField` of `readRecord`: the fields of the record that
starts with `line`, and the input left after it. -/
def parseFields : Nat → List (List Char) → List Char → List Char →
    Except CsvError (List (List Char) × List Char)
  | 0, _, _, _ => .error .exhausted
  | fuel + 1, fields, line, input =>
    match readField fuel line input with
    | .error e => .error e
    | .ok (field, some post, input') => parseFields fuel (fields ++ [field]) post input'
    | .ok (field, Option.none, input') => .ok (fields ++ [field], input')

/-- The first loop of `readRecord`: read lines until one is not empty. -/
def nextLine : Nat → List Char → Except CsvError LineRead
  | 0, _ => .error .exhausted
  | fuel + 1, input =>
    if (readLine input).eof = false ∧
        (readLine input).line.length = lengthNL (readLine input).line then
      nextLine fuel (readLine input).rest
    else .ok (readLine input)

/-- The method `readRecord` of the reader, with `fieldsPerRecord` the current
value of `FieldsPerRecord`: `none` at the end of the input (`io.EOF`),
otherwise the record, the new value of `FieldsPerRecord` and the input left. -/
def readRecord (fieldsPerRecord : Nat) (input : List Char) :
    Except CsvError (Option (List (List Char) × Nat × List Char)) :=
  match nextLine (input.length + 1) input with
  | .error e => .error e
  | .ok l =>
    if l.eof then .ok Option.none
    else
      match parseFields (input.length + 1) [] l.line l.rest with
      | .error e => .error e
      | .ok (fields, rest) =>
        if fieldsPerRecord > 0 then
          if fields.length ≠ fieldsPerRecord then .error .ErrFieldCount
          else .ok (some (fields, fieldsPerRecord, rest))
        else .ok (some (fields, fields.length, rest))

/-- The loop of `ReadAll`. -/
def readAllLoop : Nat → Nat → List (List String) → List Char →
    Except CsvError (List (List String))
  | 0, _, _, _ => .error .exhausted
  | fuel + 1, fieldsPerRecord, records, input =>
    match readRecord fieldsPerRecord input with
    | .error e => .error e
    | .ok Option.none => .ok records
    | .ok (some (fields, fieldsPerRecord', rest)) =>
      readAllLoop fuel fieldsPerRecord' (records ++ [fields.map String.mk]) rest

/-- The method `ReadAll` of a reader made by `csv.NewReader` (`FieldsPerRecord`
0: every record must have as many fields as the first). -/
def ReadAll (text : List Char) : Except CsvError (List (List String)) :=
  readAllLoop (text.length + 1) 0 [] text


/-- The text the writer has buffered after the records were written in turn. -/
def writeAll (records : List (List String)) : List Char :=
  records.flatMap Writer.Write

/-- No carriage return is directly followed by a line feed. -/
def noCRLF : List Char → Bool
  | [] => true
  | c :: cs => !(c == '\r' && cs.head? == some '\n') && noCRLF cs

/-! ## The configuration map and the file -/

/-- The type `Config`, a Go map from identifier to record. -/
abbrev Config (U D : Type) := AList (fun _ : String => Endpoint U D)

/-- The order in which a `range` loop visits a map. Go leaves it unspecified,
so it is an arbitrary rearrangement of the entries. -/
structure RangeOrder (U D : Type) where
  visit : List (Sigma fun _ : String => Endpoint U D) →
    List (Sigma fun _ : String => Endpoint U D)
  perm : ∀ l, (visit l).Perm l

/-- A CSV record: the fields of one row. -/
abbrev Row := List String

/-- The CSV file behind `configPath`: missing (`none`), or its text. -/
abbrev Disk := Option String

/-- What can go wrong while `writeConfig` talks to the file system. -/
structure Faults where
  /-- the call `os.Create` fails; the file is left as it was -/
  create : Bool
  /-- the call `writer.Write` for the row with this index reports an error -/
  write : Option Nat
  /-- the final `writer.Flush` cannot write the buffered rows to the file -/
  flush : Bool
  /-- what the (truncated) file holds after a failed write or flush -/
  onDisk : String
  deriving DecidableEq, Repr

/-- No failure: the file system accepts everything. -/
def Faults.none : Faults := { create := false, write := Option.none, flush := false, onDisk := "" }

/-- The row `writeConfig` builds for a record (the slice `record`): identifier,
URL, method, expected status, frequency, failure threshold. -/
def record {U D : Type} (c : Codec U D) (endpoint : Endpoint U D) : Row :=
  [endpoint.Identifier, c.urlString endpoint.URL, endpoint.Method,
    Itoa endpoint.StatusOnline, c.durationString endpoint.Frequency,
    Itoa endpoint.FailAfter]

/-- The loop of `writeConfig` over the map: each record is handed to
`writer.Write`; the first write that reports an error ends the function with
that error. `i` counts the rows written so far, `buf` is the text buffered. -/
def writeRows {U D : Type} (c : Codec U D) (failAt : Option Nat) :
    Nat → List (Sigma fun _ : String => Endpoint U D) → List Char →
      Except String (List Char)
  | _, [], buf => .ok buf
  | i, e :: es, buf =>
    if failAt = some i then
      .error ("write endpoint \"" ++ e.2.Identifier ++ "\"")
    else writeRows c failAt (i + 1) es (buf ++ Writer.Write (record c e.2))

/-- The function `writeConfig`: create (truncate) the file, write one row per
record of the map, flush. Returns the new file and the error, if any. The
result of `Flush` is not inspected: after the loop the function returns `nil`. -/
def writeConfig {U D : Type} (c : Codec U D) (range : RangeOrder U D) (faults : Faults)
    (config : Config U D) (disk : Disk) : Disk × Option String :=
  if faults.create then
    (disk, some "open for write")
  else
    match writeRows c faults.write 0 (range.visit config.entries) [] with
    | .error msg => (some faults.onDisk, some msg)
    | .ok text =>
      if faults.flush then (some faults.onDisk, none) else (some (String.mk text), none)

/-- The loop of `mustReadConfig` over the records read: decode each row and
store the record under its identifier; a row that does not decode is fatal
(`none`). -/
def readRows {U D : Type} (c : Codec U D) : List Row → Config U D → Option (Config U D)
  | [], config => some config
  | line :: rest, config =>
    match c.EndpointFromRecord line with
    | Option.none => Option.none
    | some endpoint => readRows c rest (config.insert endpoint.Identifier endpoint)

/-- The function `mustReadConfig`: the empty map when the file is missing,
otherwise the map of the decoded rows; `none` when the process exits through
`log.Fatalf` (malformed file or row). -/
def mustReadConfig {U D : Type} (c : Codec U D) (disk : Disk) : Option (Config U D) :=
  match disk with
  | Option.none => some ∅
  | some text =>
    match ReadAll text.data with
    | .error _ => Option.none
    | .ok records => readRows c records ∅

/-! ## The REST handlers -/

/-- The shared state the handlers work on: the map `cfg.config` and the CSV
file. The lock `cfg.mu` is not a field: a handler runs its locked sections
one after the other (`PostThread` interleaves them for concurrent requests). -/
structure ServerState (U D : Type) where
  config : Config U D
  disk : Disk

/-- What a handler sends back: the status code and the body, if any. -/
structure Response where
  status : Nat
  body : Option String
  deriving DecidableEq, Repr

abbrev StatusOK : Nat := 200
abbrev StatusCreated : Nat := 201
abbrev StatusNoContent : Nat := 204
abbrev StatusBadRequest : Nat := 400
abbrev StatusNotFound : Nat := 404
abbrev StatusMethodNotAllowed : Nat := 405
abbrev StatusInternalServerError : Nat := 500

/-- The call `w.WriteHeader(status)`: a response without a body. -/
def writeHeader (status : Nat) : Response := { status := status, body := Option.none }

/-- The handler `getEndpoint`, on the request URL. -/
def getEndpoint {U D : Type} (c : Codec U D) (s : ServerState U D) (url : String) :
    Response × ServerState U D :=
  match extractEndpointIdentifier url with
  | .error _ => (writeHeader StatusBadRequest, s)
  | .ok identifier =>
    match s.config.lookup identifier with
    | some endpoint =>
      match c.JSON endpoint with
      | Option.none => (writeHeader StatusInternalServerError, s)
      | some payload => ({ status := StatusOK, body := some payload }, s)
    | Option.none => (writeHeader StatusNotFound, s)

/-- What `postEndpoint` has settled when it reaches `cfg.mu.Lock()`: either the
request is already answered, or the record is to be written and `status` is
what will be reported if persisting it works. -/
inductive PostDecision (U D : Type) where
  | respond (r : Response)
  | write (endpoint : Endpoint U D) (status : Nat)

/-- The first part of `postEndpoint`, up to the write lock: parse the body,
look the identifier up (under the read lock), and, only if it exists, compare
it with the identifier of the path. -/
def postCheck {U D : Type} (c : Codec U D) (config : Config U D) (url body : String) :
    PostDecision U D :=
  match c.EndpointFromJSON body with
  | Option.none => .respond (writeHeader StatusBadRequest)
  | some endpoint =>
    let exists_ := (config.lookup endpoint.Identifier).isSome
    if exists_ then
      match extractEndpointIdentifier url with
      | .error _ => .respond (writeHeader StatusBadRequest)
      | .ok identifierPathParam =>
        if identifierPathParam ≠ endpoint.Identifier then
          .respond (writeHeader StatusBadRequest)
        else .write endpoint StatusNoContent
    else .write endpoint StatusCreated

/-- The second part of `postEndpoint`, under the write lock: store the record,
rewrite the file, and report `status` unless `writeConfig` returned an error. -/
def postCommit {U D : Type} (c : Codec U D) (range : RangeOrder U D) (faults : Faults)
    (s : ServerState U D) (endpoint : Endpoint U D) (status : Nat) :
    Response × ServerState U D :=
  let config := s.config.insert endpoint.Identifier endpoint
  let written := writeConfig c range faults config s.disk
  let status := if written.2.isSome then StatusInternalServerError else status
  (writeHeader status, { config := config, disk := written.1 })

/-- The handler `postEndpoint`, on the request URL and body, run without
interference from other requests. -/
def postEndpoint {U D : Type} (c : Codec U D) (range : RangeOrder U D) (faults : Faults)
    (s : ServerState U D) (url body : String) : Response × ServerState U D :=
  match postCheck c s.config url body with
  | .respond r => (r, s)
  | .write endpoint status => postCommit c range faults s endpoint status

/-- The handler `deleteEndpoint`, on the request URL. -/
def deleteEndpoint {U D : Type} (s : ServerState U D) (url : String) :
    Response × ServerState U D :=
  match extractEndpointIdentifier url with
  | .error _ => (writeHeader StatusBadRequest, s)
  | .ok identifier =>
    (writeHeader StatusNoContent, { s with config := s.config.erase identifier })

/-- The payload `getEndpoints` builds for a record. -/
def payloadOf {U D : Type} (c : Codec U D) (endpoint : Endpoint U D) : EndpointPayload :=
  { Identifier := endpoint.Identifier
    URL := c.urlString endpoint.URL
    Method := endpoint.Method
    StatusOnline := endpoint.StatusOnline
    Frequency := c.durationString endpoint.Frequency
    FailAfter := endpoint.FailAfter }

/-- The handler `getEndpoints`, on the request method. -/
def getEndpoints {U D : Type} (c : Codec U D) (range : RangeOrder U D) (s : ServerState U D)
    (method : String) : Response × ServerState U D :=
  if method ≠ "GET" then
    (writeHeader StatusMethodNotAllowed, s)
  else
    let payloads := (range.visit s.config.entries).map fun e => payloadOf c e.2
    match c.Marshal payloads with
    | Option.none => (writeHeader StatusInternalServerError, s)
    | some data => ({ status := StatusOK, body := some data }, s)

/-- An HTTP request as far as the handlers read it. -/
structure Request where
  method : String
  url : String
  body : String
  deriving DecidableEq, Repr

/-- The handler registered in `main` for the paths below `/endpoints/`: the
switch over the request method. -/
def endpointHandler {U D : Type} (c : Codec U D) (range : RangeOrder U D) (faults : Faults)
    (s : ServerState U D) (r : Request) : Response × ServerState U D :=
  if r.method = "GET" then getEndpoint c s r.url
  else if r.method = "POST" then postEndpoint c range faults s r.url r.body
  else if r.method = "DELETE" then deleteEndpoint s r.url
  else (writeHeader StatusMethodNotAllowed, s)

/-- The handler registered in `main` for the path `/endpoints`. -/
def endpointsHandler {U D : Type} (c : Codec U D) (range : RangeOrder U D)
    (s : ServerState U D) (r : Request) : Response × ServerState U D :=
  getEndpoints c range s r.method

/-! ## Concurrent POST requests -/

/-- A POST request in flight. Its accesses to the shared map are the two locked
sections of `postEndpoint`: the lookup between `RLock` and `RUnlock`, and the
insertion with the rewrite of the file between `Lock` and `Unlock`. -/
inductive PostThread (U D : Type) where
  /-- before the lookup -/
  | start (url body : String)
  /-- after `RUnlock`, before `Lock`: the status is already chosen -/
  | decided (endpoint : Endpoint U D) (status : Nat)
  /-- the response has been sent -/
  | done (r : Response)

/-- One locked section of a POST request, run atomically on the shared state. -/
def PostThread.step {U D : Type} (c : Codec U D) (range : RangeOrder U D) (faults : Faults)
    (s : ServerState U D) : PostThread U D → PostThread U D × ServerState U D
  | .start url body =>
    match postCheck c s.config url body with
    | .respond r => (.done r, s)
    | .write endpoint status => (.decided endpoint status, s)
  | .decided endpoint status =>
    let out := postCommit c range faults s endpoint status
    (.done out.1, out.2)
  | .done r => (.done r, s)

/-- Two POST requests run under a schedule: `false` lets the first request
take its next locked section, `true` the second. -/
def runPosts {U D : Type} (c : Codec U D) (range : RangeOrder U D) (faults : Faults) :
    List Bool → ServerState U D × PostThread U D × PostThread U D →
      ServerState U D × PostThread U D × PostThread U D
  | [], x => x
  | false :: schedule, (s, t₁, t₂) =>
    let out := t₁.step c range faults s
    runPosts c range faults schedule (out.2, out.1, t₂)
  | true :: schedule, (s, t₁, t₂) =>
    let out := t₂.step c range faults s
    runPosts c range faults schedule (out.2, t₁, out.1)

/-- The response of a finished request. -/
def PostThread.response {U D : Type} : PostThread U D → Option Response
  | .done r => some r
  | _ => Option.none

/-! ## Consistency of map and file -/

/-- The rows the reader finds in the file: none in a missing file, `none` for
a text the reader rejects. -/
def rowsOnDisk (disk : Disk) : Option (List Row) :=
  match disk with
  | Option.none => some []
  | some text =>
    match ReadAll text.data with
    | .ok rows => some rows
    | .error _ => Option.none

/-- The file holds exactly one row for each record of the map and nothing
else. -/
def FileHoldsMap {U D : Type} (c : Codec U D) (s : ServerState U D) : Prop :=
  ∃ rows ∈ rowsOnDisk s.disk, rows.Perm (s.config.entries.map fun e => record c e.2)

/-! ## A concrete codec and the records of the scenarios -/

/-- Decimal digits to a number; `none` unless the text is a non-empty run of digits. -/
def parseNat (s : String) : Option Nat :=
  match s.data with
  | [] => Option.none
  | cs =>
    cs.foldl
      (fun acc ch =>
        match acc with
        | Option.none => Option.none
        | some n => if ch.isDigit then some (10 * n + (ch.toNat - 48)) else Option.none)
      (some 0)

/-- The record of the scenario: `svc-a` with failure threshold `failAfter`. -/
def svcA (failAfter : Nat) : Endpoint String String :=
  { Identifier := "svc-a", URL := "http://x/", Method := "GET", StatusOnline := 200,
    Frequency := "30s", FailAfter := failAfter }

/-- The request body of the scenario with `failAfter` 3. -/
def bodyA3 : String :=
  "\x7b\"identifier\":\"svc-a\",\"url\":\"http://x/\",\"method\":\"GET\",\"statusOnline\":200,\"frequency\":\"30s\",\"failAfter\":3\x7d"

/-- The request body of the scenario with `failAfter` 5. -/
def bodyA5 : String :=
  "\x7b\"identifier\":\"svc-a\",\"url\":\"http://x/\",\"method\":\"GET\",\"statusOnline\":200,\"frequency\":\"30s\",\"failAfter\":5\x7d"

/-- A codec to run the handlers with: URLs and durations are kept as their
string forms, a row decodes when it has six fields with numbers in the fourth
and sixth, and the two bodies of the scenario parse to their records. -/
def demoCodec : Codec String String where
  urlString := id
  durationString := id
  EndpointFromJSON := fun body =>
    if body = bodyA3 then some (svcA 3)
    else if body = bodyA5 then some (svcA 5)
    else Option.none
  EndpointFromRecord := fun row =>
    match row with
    | [identifier, url, method, statusOnline, frequency, failAfter] =>
      match parseNat statusOnline, parseNat failAfter with
      | some st, some fa =>
        some { Identifier := identifier, URL := url, Method := method, StatusOnline := st,
               Frequency := frequency, FailAfter := fa }
      | _, _ => Option.none
    | _ => Option.none
  JSON := fun e =>
    some (String.intercalate ","
      [e.Identifier, e.URL, e.Method, Itoa e.StatusOnline, e.Frequency, Itoa e.FailAfter])
  Marshal := fun ps => some (String.intercalate ";" (ps.map fun p => p.Identifier))

/-- A `range` that visits the entries in the order they are stored. -/
def inOrder (U D : Type) : RangeOrder U D where
  visit := id
  perm := fun _ => List.Perm.refl _

/-- A `range` that visits the entries in reverse order. -/
def reversed (U D : Type) : RangeOrder U D where
  visit := List.reverse
  perm := fun l => List.reverse_perm l

/-- The state of a server with no endpoints and no file. -/
def emptyState (U D : Type) : ServerState U D := { config := ∅, disk := Option.none }

/-! ## Behaviour of the matcher on the pattern -/

theorem inClass_head (c : Char) : inClass [('a', 'z')] c = true ↔ IsLowerLetter c := by
  simp [inClass, IsLowerLetter]

theorem inClass_tail (c : Char) :
    inClass [('-', '-'), ('a', 'z'), ('0', '9')] c = true ↔
      (IsLowerLetter c ∨ IsDigit c ∨ c = '-') := by
  simp only [inClass, IsLowerLetter, IsDigit, List.any_cons, List.any_nil, Bool.or_false,
    Bool.or_eq_true, Bool.and_eq_true, decide_eq_true_eq]
  constructor
  · rintro (h | h | h)
    · exact Or.inr (Or.inr (Char.le_antisymm h.2 h.1))
    · exact Or.inl h
    · exact Or.inr (Or.inl h)
  · rintro (h | h | h)
    · exact Or.inr (Or.inl h)
    · exact Or.inr (Or.inr h)
    · subst h; exact Or.inl (by decide)

/-- The end-of-text anchor keeps exactly the outcomes with nothing left to read. -/
theorem run_eol (st : MState) : Regex.eol.run st = if st.rest = [] then [st] else [] := rfl

/-- A greedy repetition of a character class followed by `$`: the only outcome
reads the whole (non-empty) rest, and exists only if every character is in the class. -/
theorem plusLoop_eol (p : Char → Bool) :
    ∀ (n : Nat) (st : MState), st.rest.length < n →
      (plusLoop (readChar p) n st).flatMap Regex.eol.run =
        if st.rest ≠ [] ∧ st.rest.all p = true then
          [{ st with pos := st.pos + st.rest.length, rest := [] }]
        else [] := by
  intro n
  induction n with
  | zero => intro st h; omega
  | succ n ih =>
    intro st h
    obtain ⟨pos, rest, caps⟩ := st
    cases rest with
    | nil => simp [plusLoop, readChar]
    | cons x xs =>
      by_cases hx : p x = true
      · have hlen : xs.length < n := by simpa using h
        have := ih { pos := pos + 1, rest := xs, caps := caps } hlen
        simp only [plusLoop, readChar, hx, if_true, List.flatMap_cons, List.flatMap_nil,
          List.append_nil, List.length_cons, Nat.lt_succ_self, List.flatMap_append, this]
        cases xs with
        | nil => simp [run_eol, hx]
        | cons y ys =>
          simp only [run_eol, List.all_cons, hx]
          by_cases hall : (p y && ys.all p) = true
          · simp [hall, Nat.add_assoc, Nat.add_comm 1]
          · simp [hall]
      · simp [plusLoop, readChar, hx]

theorem run_seq (r₁ r₂ : Regex) (st : MState) :
    (Regex.seq r₁ r₂).run st = (r₁.run st).flatMap r₂.run := rfl

theorem run_group (r : Regex) (st : MState) :
    (Regex.group r).run st =
      (r.run st).map fun st' =>
        { st' with caps := st'.caps ++ [st.rest.take (st'.pos - st.pos)] } := rfl

/-- Filtering by `$` commutes with a change of the captures only. -/
theorem map_flatMap_eol (f : MState → MState) (hf : ∀ st, (f st).rest = st.rest) :
    ∀ l : List MState, (l.map f).flatMap Regex.eol.run = (l.flatMap Regex.eol.run).map f := by
  intro l
  induction l with
  | nil => rfl
  | cons a l ih =>
    simp only [List.map_cons, List.flatMap_cons, List.map_append, ih, run_eol, hf]
    by_cases h : a.rest = [] <;> simp [h]

/-- The group of the pattern followed by `$`, `([a-z][-a-z0-9]+)$`: it matches
exactly when the whole rest is a letter followed by one or more class
characters, and then captures the whole rest. -/
theorem run_group_eol (st : MState) :
    (Regex.seq
        (.group (.seq (.cls [('a', 'z')]) (.plus (.cls [('-', '-'), ('a', 'z'), ('0', '9')]))))
        .eol).run st =
      match st.rest with
      | c :: d :: ds =>
        if inClass [('a', 'z')] c = true ∧
            (d :: ds).all (inClass [('-', '-'), ('a', 'z'), ('0', '9')]) = true then
          [{ pos := st.pos + st.rest.length, rest := [], caps := st.caps ++ [st.rest] }]
        else []
      | _ => [] := by
  obtain ⟨pos, rest, caps⟩ := st
  have hcls : ∀ rs, Regex.run (.cls rs) = readChar (inClass rs) := fun rs => by
    funext st; rfl
  have hplus : ∀ r, Regex.run (.plus r) =
      fun st => plusLoop (Regex.run r) (st.rest.length + 1) st := fun r => by
    funext st; rfl
  rw [run_seq, run_group, run_seq, hcls, hplus, hcls,
    map_flatMap_eol
      (fun st' : MState => { st' with caps := st'.caps ++ [rest.take (st'.pos - pos)] })
      (fun _ => rfl),
    List.flatMap_assoc]
  cases rest with
  | nil => simp [readChar]
  | cons c t =>
    by_cases hc : inClass [('a', 'z')] c = true
    · simp only [readChar, hc, if_true, List.flatMap_cons, List.flatMap_nil, List.append_nil]
      rw [plusLoop_eol _ (t.length + 1) { pos := pos + 1, rest := t, caps := caps }
        (Nat.lt_succ_self _)]
      cases t with
      | nil => simp
      | cons d ds =>
        by_cases hall : (d :: ds).all (inClass [('-', '-'), ('a', 'z'), ('0', '9')]) = true
        · simp only [hall, ne_eq, reduceCtorEq, not_false_eq_true, and_self, if_true,
            List.map_cons, List.map_nil, true_and]
          simp [Nat.add_assoc, Nat.add_comm 1, hc]
        · simp [hall]
    · cases t <;> simp [readChar, hc]

/-- A literal prefix: the match continues after the prefix, or fails. -/
theorem run_lits (r : Regex) :
    ∀ (cs : List Char) (st : MState),
      (Regex.lits cs r).run st =
        if cs <+: st.rest then
          r.run { st with pos := st.pos + cs.length, rest := st.rest.drop cs.length }
        else [] := by
  intro cs
  induction cs with
  | nil => intro st; simp [Regex.lits]
  | cons c cs ih =>
    intro st
    obtain ⟨pos, rest, caps⟩ := st
    have hunf : Regex.lits (c :: cs) r = .seq (.char c) (Regex.lits cs r) := rfl
    have hchar : Regex.run (.char c) = readChar (fun x => x == c) := by funext st; rfl
    rw [hunf, run_seq, hchar]
    cases rest with
    | nil => simp [readChar]
    | cons x xs =>
      by_cases hx : x = c
      · subst hx
        simp only [readChar, beq_self_eq_true, if_true, List.flatMap_cons, List.flatMap_nil,
          List.append_nil, ih, List.prefix_cons_inj, List.length_cons, List.drop_succ_cons]
        simp [Nat.add_assoc, Nat.add_comm 1]
      · have hne : ¬ (c :: cs <+: x :: xs) := by
          intro h
          rw [List.cons_prefix_cons] at h
          exact hx h.1.symm
        simp [readChar, hx, hne]

/-- The anchor `^` fails at every offset but the first. -/
theorem findFrom_pattern_succ :
    ∀ (rest : List Char) (pos : Nat), findFrom endpointIdentifierPattern (pos + 1) rest = [] := by
  have hrun : ∀ (pos : Nat) (rest : List Char),
      endpointIdentifierPattern.run { pos := pos + 1, rest := rest, caps := [] } = [] := by
    intro pos rest
    simp [endpointIdentifierPattern, run_seq, Regex.run]
  intro rest
  induction rest with
  | nil => intro pos; simp [findFrom, hrun]
  | cons x xs ih =>
    intro pos
    simp [findFrom, hrun, ih]

theorem groupMatches_iff (id : String) : groupMatches id.data = true ↔ ValidIdentifier id := by
  unfold ValidIdentifier
  constructor
  · intro h
    match hd : id.data, h with
    | c :: d :: ds, h =>
      simp only [groupMatches, Bool.and_eq_true, List.all_eq_true] at h
      refine ⟨c, d :: ds, rfl, (inClass_head c).1 h.1, by simp, ?_⟩
      intro x hx
      exact (inClass_tail x).1 (h.2 x hx)
  · rintro ⟨c, cs, hd, hc, hne, hall⟩
    rw [hd]
    cases cs with
    | nil => exact absurd rfl hne
    | cons d ds =>
      simp only [groupMatches, Bool.and_eq_true, List.all_eq_true]
      exact ⟨(inClass_head c).2 hc, fun x hx => (inClass_tail x).2 (hall x hx)⟩

/-- The outcome of the search for the pattern in a text. -/
theorem findFrom_pattern (s : List Char) :
    findFrom endpointIdentifierPattern 0 s =
      if "/endpoints/".data <+: s ∧ groupMatches (s.drop 11) = true then
        [String.mk s, String.mk (s.drop 11)]
      else [] := by
  have hrun : endpointIdentifierPattern.run { pos := 0, rest := s, caps := [] } =
      if "/endpoints/".data <+: s ∧ groupMatches (s.drop 11) = true then
        [{ pos := s.length, rest := [], caps := [s.drop 11] }]
      else [] := by
    have hbol : ∀ st : MState, Regex.bol.run st = if st.pos = 0 then [st] else [] :=
      fun _ => rfl
    rw [endpointIdentifierPattern, run_seq, hbol]
    simp only [if_true, List.flatMap_cons, List.flatMap_nil, List.append_nil, run_lits]
    by_cases hp : "/endpoints/".data <+: s
    · obtain ⟨t, rfl⟩ := hp
      have hlen : "/endpoints/".data.length = 11 := rfl
      simp only [List.prefix_append, if_true, true_and, hlen, List.drop_left', Nat.zero_add,
        run_group_eol]
      match t with
      | [] => simp [groupMatches]
      | [_] => simp [groupMatches]
      | c :: d :: ds =>
        simp only [groupMatches, Bool.and_eq_true, List.nil_append, List.length_append, hlen]
    · simp [hp]
  by_cases h : "/endpoints/".data <+: s ∧ groupMatches (s.drop 11) = true
  · rw [if_pos h] at hrun
    rw [if_pos h]
    cases s with
    | nil => simp [findFrom, hrun, submatches]
    | cons x xs => simp [findFrom, hrun, submatches]
  · rw [if_neg h] at hrun
    rw [if_neg h]
    cases s with
    | nil => simp [findFrom, hrun]
    | cons x xs => simp [findFrom, hrun, findFrom_pattern_succ xs 0]

/-- The result of `extractEndpointIdentifier` in closed form. -/
theorem extractEndpointIdentifier_eq (endpoint : String) :
    extractEndpointIdentifier endpoint =
      if "/endpoints/".data <+: endpoint.data ∧ groupMatches (endpoint.data.drop 11) = true then
        .ok (String.mk (endpoint.data.drop 11))
      else
        .error ("endpoint \"" ++ endpoint ++ "\" does not match pattern \"" ++
          endpointIdentifierPatternRaw ++ "\"") := by
  unfold extractEndpointIdentifier Regex.FindStringSubmatch
  rw [findFrom_pattern]
  by_cases h : "/endpoints/".data <+: endpoint.data ∧ groupMatches (endpoint.data.drop 11) = true
  · simp [h]
  · simp [h]

/-- The extraction succeeds with `id` exactly on `/endpoints/id` for a valid `id`. -/
theorem extract_ok_iff (s id : String) :
    extractEndpointIdentifier s = .ok id ↔ (s = "/endpoints/" ++ id ∧ ValidIdentifier id) := by
  rw [extractEndpointIdentifier_eq]
  constructor
  · intro h
    by_cases hc : "/endpoints/".data <+: s.data ∧ groupMatches (s.data.drop 11) = true
    · rw [if_pos hc] at h
      obtain ⟨⟨t, ht⟩, hg⟩ := hc
      have hid : id = String.mk (s.data.drop 11) := by
        injection h with h; exact h.symm
      have hdrop : s.data.drop 11 = t := by
        rw [← ht]; exact List.drop_left' rfl
      rw [hdrop] at hid hg
      subst hid
      refine ⟨?_, (groupMatches_iff _).1 hg⟩
      apply String.ext
      rw [String.data_append, ← ht]
    · rw [if_neg hc] at h
      cases h
  · rintro ⟨rfl, hv⟩
    have hdrop : ("/endpoints/" ++ id).data.drop 11 = id.data := by
      rw [String.data_append]; exact List.drop_left' rfl
    have hc : "/endpoints/".data <+: ("/endpoints/" ++ id).data ∧
        groupMatches (("/endpoints/" ++ id).data.drop 11) = true := by
      refine ⟨?_, ?_⟩
      · rw [String.data_append]; exact List.prefix_append _ _
      · rw [hdrop]; exact (groupMatches_iff id).2 hv
    rw [if_pos hc, hdrop]

/-- The extraction fails exactly on the strings that are not `/endpoints/id`
for a valid `id`. -/
theorem extract_error_iff (s : String) :
    (∃ msg, extractEndpointIdentifier s = .error msg) ↔
      ¬ ∃ id, s = "/endpoints/" ++ id ∧ ValidIdentifier id := by
  constructor
  · rintro ⟨msg, hmsg⟩ ⟨id, hid⟩
    rw [(extract_ok_iff s id).2 hid] at hmsg
    cases hmsg
  · intro h
    cases hres : extractEndpointIdentifier s with
    | error msg => exact ⟨msg, rfl⟩
    | ok id => exact absurd ⟨id, (extract_ok_iff s id).1 hres⟩ h

/-! ## Reading back what the writer wrote -/

theorem readSlice_cons_ne (c : Char) (s : List Char) (h : c ≠ '\n') :
    readSlice (c :: s) = (c :: (readSlice s).1, (readSlice s).2) := by
  simp [readSlice, h]

theorem readSlice_newline (s : List Char) : readSlice ('\n' :: s) = (['\n'], s) := by
  simp [readSlice]

theorem readSlice_append (p s : List Char) (h : '\n' ∉ p) :
    readSlice (p ++ s) = (p ++ (readSlice s).1, (readSlice s).2) := by
  induction p with
  | nil => rfl
  | cons c p ih =>
    have hc : c ≠ '\n' := fun e => h (by simp [e])
    have hp : '\n' ∉ p := fun e => h (List.mem_cons_of_mem _ e)
    rw [List.cons_append, readSlice_cons_ne _ _ hc, ih hp]
    rfl

theorem exists_first_newline (s : List Char) (h : '\n' ∈ s) :
    ∃ body rest, s = body ++ '\n' :: rest ∧ '\n' ∉ body := by
  induction s with
  | nil => cases h
  | cons c s ih =>
    by_cases hc : c = '\n'
    · exact ⟨[], s, by simp [hc], by simp⟩
    · have hs : '\n' ∈ s := by
        rcases List.mem_cons.1 h with e | e
        · exact absurd e.symm hc
        · exact e
      obtain ⟨body, rest, hs', hb⟩ := ih hs
      refine ⟨c :: body, rest, by simp [hs'], ?_⟩
      intro e
      rcases List.mem_cons.1 e with e | e
      · exact hc e.symm
      · exact hb e

theorem noCRLF_tail (c : Char) (s : List Char) (h : noCRLF (c :: s) = true) :
    noCRLF s = true := by
  simp [noCRLF] at h
  exact h.2

theorem noCRLF_suffix (p s : List Char) (h : noCRLF (p ++ s) = true) : noCRLF s = true := by
  induction p with
  | nil => exact h
  | cons c p ih => exact ih (noCRLF_tail _ _ h)

theorem noCRLF_body (body rest : List Char) (h : noCRLF (body ++ '\n' :: rest) = true) :
    body.getLast? ≠ some '\r' := by
  induction body with
  | nil => simp
  | cons c body ih =>
    cases body with
    | nil =>
      simp [noCRLF] at h
      simpa using h.1
    | cons d body =>
      have := ih (noCRLF_tail _ _ h)
      simpa [List.getLast?_cons_cons] using this

theorem normalizeCRLF_line (body : List Char) (h : body.getLast? ≠ some '\r') :
    normalizeCRLF (body ++ ['\n']) = body ++ ['\n'] := by
  unfold normalizeCRLF
  rw [List.reverse_append]
  cases hb : body.reverse with
  | nil => simp
  | cons d r =>
    have hd : d ≠ '\r' := by
      intro e
      apply h
      rw [List.getLast?_eq_head?_reverse, hb, e]
      rfl
    simp [hd]

/-- A line that does not end in carriage return and line feed is read as it is. -/
theorem readLine_line (body rest : List Char) (hb : '\n' ∉ body)
    (hcr : body.getLast? ≠ some '\r') :
    readLine (body ++ '\n' :: rest) =
      { line := body ++ ['\n'], eof := false, rest := rest } := by
  have hs : readSlice (body ++ '\n' :: rest) = (body ++ ['\n'], rest) := by
    rw [readSlice_append _ _ hb, readSlice_newline]
  simp [readLine, hs, normalizeCRLF_line body hcr]

/-- In a text without carriage return before line feed, a line is read as it is. -/
theorem readLine_noCRLF (s : List Char) (hn : '\n' ∈ s) (h : noCRLF s = true) :
    readLine s = { line := (readSlice s).1, eof := false, rest := (readSlice s).2 } := by
  obtain ⟨body, rest, rfl, hb⟩ := exists_first_newline s hn
  rw [readLine_line body rest hb (noCRLF_body body rest h), readSlice_append _ _ hb,
    readSlice_newline]

theorem cutAt_append (c : Char) (p q : List Char) (h : c ∉ p) :
    cutAt c (p ++ c :: q) = some (p, q) := by
  induction p with
  | nil => simp [cutAt]
  | cons x p ih =>
    have hx : x ≠ c := fun e => h (by simp [e])
    have hp : c ∉ p := fun e => h (List.mem_cons_of_mem _ e)
    simp [cutAt, hx, ih hp]

theorem cutAt_none (c : Char) (l : List Char) (h : c ∉ l) : cutAt c l = Option.none := by
  induction l with
  | nil => rfl
  | cons x l ih =>
    have hx : x ≠ c := fun e => h (by simp [e])
    have hp : c ∉ l := fun e => h (List.mem_cons_of_mem _ e)
    simp [cutAt, hx, ih hp]


theorem readSlice_fst_ne_nil (s : List Char) (h : s ≠ []) : (readSlice s).1 ≠ [] := by
  cases s with
  | nil => exact absurd rfl h
  | cons c s =>
    by_cases hc : c = '\n'
    · simp [readSlice, hc]
    · simp [readSlice, hc]

/-- A character of a quoted field that is not a quote is taken over as it is. -/
theorem readQuoted_char (fuel : Nat) (acc : List Char) (c : Char) (line input : List Char)
    (hc : c ≠ '"') (hl : line ≠ []) :
    readQuoted fuel acc (c :: line) input = readQuoted fuel (acc ++ [c]) line input := by
  cases fuel with
  | zero => rfl
  | succ n =>
    have hcut : cutAt '"' (c :: line) = (cutAt '"' line).map fun p => (c :: p.1, p.2) := by
      simp [cutAt, hc]
    simp only [readQuoted, hcut]
    cases hq : cutAt '"' line with
    | none => simp [hl]
    | some p =>
      obtain ⟨pre, post⟩ := p
      simp [List.append_assoc]

/-- Reading the body of a quoted field the writer wrote gives back the field;
`res` is what the reader does after the closing quote. -/
theorem readQuoted_content (T : List Char) (res : List Char → Except CsvError FieldRead)
    (hT : '\n' ∈ T)
    (hbase : ∀ fuel acc, 0 < fuel →
      readQuoted fuel acc (readSlice ('"' :: T)).1 (readSlice ('"' :: T)).2 = res acc) :
    ∀ (cs : List Char) (fuel : Nat) (acc : List Char), cs.length < fuel →
      noCRLF (escapeQuoted cs ++ '"' :: T) = true →
      readQuoted fuel acc (readSlice (escapeQuoted cs ++ '"' :: T)).1
          (readSlice (escapeQuoted cs ++ '"' :: T)).2 = res (acc ++ cs) := by
  intro cs
  induction cs with
  | nil =>
    intro fuel acc hf _
    simpa [escapeQuoted] using hbase fuel acc hf
  | cons c cs ih =>
    intro fuel acc hf hn
    have hne : escapeQuoted cs ++ '"' :: T ≠ [] := by simp
    have hmem : '\n' ∈ escapeQuoted cs ++ '"' :: T :=
      List.mem_append_right _ (List.mem_cons_of_mem _ hT)
    by_cases hq : c = '"'
    · subst hq
      obtain ⟨n, rfl⟩ : ∃ n, fuel = n + 1 := ⟨fuel - 1, by omega⟩
      have hn2 : noCRLF (escapeQuoted cs ++ '"' :: T) = true := by
        have h1 := hn
        simp only [escapeQuoted, if_true, List.cons_append] at h1
        exact noCRLF_tail _ _ (noCRLF_tail _ _ h1)
      have hstep := ih n (acc ++ ['"']) (by simp only [List.length_cons] at hf; omega) hn2
      simp only [escapeQuoted, if_true, List.cons_append]
      rw [readSlice_cons_ne _ _ (by decide), readSlice_cons_ne _ _ (by decide)]
      simp only [readQuoted, cutAt, if_true, List.append_nil]
      rw [hstep]
      simp
    · have hesc : escapeQuoted (c :: cs) = c :: escapeQuoted cs := by
        simp [escapeQuoted, hq]
      rw [hesc, List.cons_append] at hn ⊢
      have hn2 : noCRLF (escapeQuoted cs ++ '"' :: T) = true := noCRLF_tail _ _ hn
      by_cases hnl : c = '\n'
      · subst hnl
        obtain ⟨n, rfl⟩ : ∃ n, fuel = n + 1 := ⟨fuel - 1, by omega⟩
        have hstep := ih n (acc ++ ['\n']) (by simp only [List.length_cons] at hf; omega) hn2
        rw [readSlice_newline]
        have hcut : cutAt '"' ['\n'] = Option.none := cutAt_none _ _ (by decide)
        simp only [readQuoted, hcut]
        rw [if_pos (by simp), readLine_noCRLF _ hmem hn2, hstep]
        simp
      · rw [readSlice_cons_ne _ _ hnl]
        rw [readQuoted_char _ _ _ _ _ hq (readSlice_fst_ne_nil _ hne)]
        have hstep := ih fuel (acc ++ [c])
          (by simp only [List.length_cons] at hf; omega) hn2
        rw [hstep]
        simp


/-- A field written without quotes has none of the special characters. -/
theorem unquoted_chars (f : List Char) (h : fieldNeedsQuotes f = false) :
    '\n' ∉ f ∧ '\r' ∉ f ∧ '"' ∉ f ∧ ',' ∉ f := by
  cases f with
  | nil => simp
  | cons r1 t =>
    unfold fieldNeedsQuotes at h
    simp only at h
    split_ifs at h with h1 h2
    have hall : ∀ c ∈ r1 :: t, ¬ (c = '\n' ∨ c = '\r' ∨ c = '"' ∨ c = ',') := by
      intro c hc hbad
      apply h2
      rw [List.any_eq_true]
      refine ⟨c, hc, ?_⟩
      rcases hbad with e | e | e | e <;> simp [e]
    refine ⟨fun hm => hall _ hm (Or.inl rfl), fun hm => hall _ hm (Or.inr (Or.inl rfl)),
      fun hm => hall _ hm (Or.inr (Or.inr (Or.inl rfl))),
      fun hm => hall _ hm (Or.inr (Or.inr (Or.inr rfl)))⟩

/-- A written field followed by a comma is read back, and the reader goes on
after the comma. -/
theorem readField_comma (f T : List Char) (fuel : Nat) (hf : f.length < fuel)
    (hT : '\n' ∈ T) (hn : noCRLF (writeField f ++ ',' :: T) = true) :
    readField fuel (readSlice (writeField f ++ ',' :: T)).1
        (readSlice (writeField f ++ ',' :: T)).2 =
      .ok (f, some (readSlice T).1, (readSlice T).2) := by
  by_cases hq : fieldNeedsQuotes f = true
  · have hw : writeField f ++ ',' :: T = '"' :: (escapeQuoted f ++ '"' :: ',' :: T) := by
      simp [writeField, hq]
    rw [hw] at hn ⊢
    rw [readSlice_cons_ne _ _ (by decide)]
    simp only [readField, List.head?_cons, if_true, List.tail_cons]
    have := readQuoted_content (',' :: T)
      (fun acc => .ok (acc, some (readSlice T).1, (readSlice T).2))
      (List.mem_cons_of_mem _ hT)
      (by
        intro fuel acc hfuel
        obtain ⟨n, rfl⟩ : ∃ n, fuel = n + 1 := ⟨fuel - 1, by omega⟩
        rw [readSlice_cons_ne _ _ (by decide), readSlice_cons_ne _ _ (by decide)]
        simp [readQuoted, cutAt])
      f fuel [] hf (noCRLF_tail _ _ hn)
    simpa using this
  · have hq' : fieldNeedsQuotes f = false := by simpa using hq
    obtain ⟨h1, _, h3, h4⟩ := unquoted_chars f hq'
    have hw : writeField f = f := by simp [writeField, hq']
    rw [hw, readSlice_append _ _ h1, readSlice_cons_ne _ _ (by decide)]
    have hhead : (f ++ ',' :: (readSlice T).1).head? ≠ some '"' := by
      cases f with
      | nil => simp
      | cons c t =>
        simp only [List.cons_append, List.head?_cons, ne_eq, Option.some.injEq]
        intro e
        exact h3 (by simp [e])
    simp only [readField, hhead, if_false, readUnquoted, cutAt_append _ _ _ h4]
    simp [h3]

/-- A written field at the end of its record is read back, and the record ends. -/
theorem readField_newline (f R : List Char) (fuel : Nat) (hf : f.length < fuel)
    (hn : noCRLF (writeField f ++ '\n' :: R) = true) :
    readField fuel (readSlice (writeField f ++ '\n' :: R)).1
        (readSlice (writeField f ++ '\n' :: R)).2 =
      .ok (f, Option.none, R) := by
  by_cases hq : fieldNeedsQuotes f = true
  · have hw : writeField f ++ '\n' :: R = '"' :: (escapeQuoted f ++ '"' :: '\n' :: R) := by
      simp [writeField, hq]
    rw [hw] at hn ⊢
    rw [readSlice_cons_ne _ _ (by decide)]
    simp only [readField, List.head?_cons, if_true, List.tail_cons]
    have := readQuoted_content ('\n' :: R)
      (fun acc => .ok (acc, Option.none, R))
      (List.mem_cons_self _ _)
      (by
        intro fuel acc hfuel
        obtain ⟨n, rfl⟩ : ∃ n, fuel = n + 1 := ⟨fuel - 1, by omega⟩
        rw [readSlice_cons_ne _ _ (by decide), readSlice_newline]
        simp [readQuoted, cutAt, lengthNL])
      f fuel [] hf (noCRLF_tail _ _ hn)
    simpa using this
  · have hq' : fieldNeedsQuotes f = false := by simpa using hq
    obtain ⟨h1, _, h3, h4⟩ := unquoted_chars f hq'
    have hw : writeField f = f := by simp [writeField, hq']
    rw [hw, readSlice_append _ _ h1, readSlice_newline]
    have hhead : (f ++ ['\n']).head? ≠ some '"' := by
      cases f with
      | nil => simp
      | cons c t =>
        simp only [List.cons_append, List.head?_cons, ne_eq, Option.some.injEq]
        intro e
        exact h3 (by simp [e])
    have hcut : cutAt ',' (f ++ ['\n']) = Option.none := by
      apply cutAt_none
      intro hm
      rcases List.mem_append.1 hm with hm | hm
      · exact h4 hm
      · simp at hm
    have hlen : lengthNL (f ++ ['\n']) = 1 := by simp [lengthNL]
    simp only [readField, hhead, if_false, readUnquoted, hcut, hlen]
    simp [h3]


theorem length_escapeQuoted (f : List Char) : f.length ≤ (escapeQuoted f).length := by
  induction f with
  | nil => simp [escapeQuoted]
  | cons c f ih =>
    by_cases hc : c = '"'
    · simp only [escapeQuoted, hc, if_true, List.length_cons]; omega
    · simp only [escapeQuoted, hc, if_false, List.length_cons]; omega

theorem length_writeField (f : List Char) : f.length ≤ (writeField f).length := by
  unfold writeField
  split_ifs
  · have := length_escapeQuoted f
    simp only [List.length_cons, List.length_append, List.length_nil]
    omega
  · exact Nat.le_refl _

theorem newline_mem_written (fs : List (List Char)) (R : List Char) :
    '\n' ∈ writeFields fs ++ '\n' :: R :=
  List.mem_append_right _ (List.mem_cons_self _ _)

/-- The fields of a written record are read back, up to its line feed. -/
theorem parseFields_written :
    ∀ (fs : List (List Char)) (f : List Char) (fuel : Nat) (done : List (List Char))
      (R : List Char),
      (writeFields (f :: fs) ++ '\n' :: R).length < fuel →
      noCRLF (writeFields (f :: fs) ++ '\n' :: R) = true →
      parseFields fuel done (readSlice (writeFields (f :: fs) ++ '\n' :: R)).1
          (readSlice (writeFields (f :: fs) ++ '\n' :: R)).2 =
        .ok (done ++ f :: fs, R) := by
  intro fs
  induction fs with
  | nil =>
    intro f fuel done R hfuel hn
    obtain ⟨n, rfl⟩ : ∃ n, fuel = n + 1 := ⟨fuel - 1, by omega⟩
    simp only [writeFields] at hfuel hn ⊢
    have hlen : f.length < n := by
      have := length_writeField f
      simp only [List.length_append, List.length_cons] at hfuel
      omega
    simp only [parseFields, readField_newline f R n hlen hn]
  | cons g gs ih =>
    intro f fuel done R hfuel hn
    obtain ⟨n, rfl⟩ : ∃ n, fuel = n + 1 := ⟨fuel - 1, by omega⟩
    have hw : writeFields (f :: g :: gs) ++ '\n' :: R =
        writeField f ++ ',' :: (writeFields (g :: gs) ++ '\n' :: R) := by
      simp [writeFields]
    rw [hw] at hfuel hn ⊢
    have hlen : f.length < n := by
      have := length_writeField f
      simp only [List.length_append, List.length_cons] at hfuel
      omega
    have hrest : (writeFields (g :: gs) ++ '\n' :: R).length < n := by
      simp only [List.length_append, List.length_cons] at hfuel ⊢
      omega
    have hn2 : noCRLF (writeFields (g :: gs) ++ '\n' :: R) = true :=
      noCRLF_tail _ _ (noCRLF_suffix _ _ hn)
    simp only [parseFields,
      readField_comma f _ n hlen (newline_mem_written (g :: gs) R) hn]
    rw [ih g n (done ++ [f]) R hrest hn2]
    simp

theorem writeField_head (f : List Char) : (writeField f).head? ≠ some '\n' := by
  by_cases hq : fieldNeedsQuotes f = true
  · simp [writeField, hq]
  · have hq' : fieldNeedsQuotes f = false := by simpa using hq
    obtain ⟨h1, _⟩ := unquoted_chars f hq'
    cases f with
    | nil => simp [writeField, hq']
    | cons c t =>
      simp only [writeField, hq', Bool.false_eq_true, if_false, List.head?_cons, ne_eq,
        Option.some.injEq]
      intro e
      exact h1 (by simp [e])

/-- A written record of two or more fields is read back as one record. -/
theorem readRecord_written (f g : List Char) (gs : List (List Char)) (R : List Char)
    (fieldsPerRecord : Nat)
    (hn : noCRLF (writeFields (f :: g :: gs) ++ '\n' :: R) = true) :
    readRecord fieldsPerRecord (writeFields (f :: g :: gs) ++ '\n' :: R) =
      if fieldsPerRecord > 0 then
        if (f :: g :: gs).length ≠ fieldsPerRecord then .error .ErrFieldCount
        else .ok (some (f :: g :: gs, fieldsPerRecord, R))
      else .ok (some (f :: g :: gs, (f :: g :: gs).length, R)) := by
  have hmem := newline_mem_written (f :: g :: gs) R
  have hline := readLine_noCRLF _ hmem hn
  have hfirst : ∃ c t, writeFields (f :: g :: gs) ++ '\n' :: R = c :: t ∧ c ≠ '\n' ∧
      t ≠ [] := by
    have hw : writeFields (f :: g :: gs) ++ '\n' :: R =
        writeField f ++ ',' :: (writeFields (g :: gs) ++ '\n' :: R) := by
      simp [writeFields]
    rw [hw]
    have hh := writeField_head f
    cases hwf : writeField f with
    | nil => exact ⟨',', _, rfl, by decide, by simp⟩
    | cons c t =>
      rw [hwf] at hh
      exact ⟨c, _, rfl, by simpa using hh, by simp⟩
  obtain ⟨c, t, hct, hc, ht⟩ := hfirst
  have hnext : nextLine ((writeFields (f :: g :: gs) ++ '\n' :: R).length + 1)
      (writeFields (f :: g :: gs) ++ '\n' :: R) =
      .ok { line := (readSlice (writeFields (f :: g :: gs) ++ '\n' :: R)).1, eof := false,
            rest := (readSlice (writeFields (f :: g :: gs) ++ '\n' :: R)).2 } := by
    simp only [nextLine, hline]
    rw [if_neg]
    rw [hct, readSlice_cons_ne _ _ hc]
    have h2 : (readSlice t).1 ≠ [] := readSlice_fst_ne_nil _ ht
    have h3 : lengthNL (c :: (readSlice t).1) ≤ 1 := by
      unfold lengthNL; split_ifs <;> omega
    have h4 : 0 < (readSlice t).1.length := List.length_pos.2 h2
    simp only [List.length_cons, true_and]
    omega
  simp only [readRecord, hnext]
  rw [parseFields_written (g :: gs) f _ [] R (Nat.lt_succ_self _) hn]
  simp


theorem noCRLF_cons_of_ne (c : Char) (s : List Char) (hc : c ≠ '\r')
    (h : noCRLF s = true) : noCRLF (c :: s) = true := by
  simp [noCRLF, hc, h]

theorem noCRLF_append (x y : List Char) (hx : noCRLF x = true) (hy : noCRLF y = true)
    (hxy : x.getLast? ≠ some '\r' ∨ y.head? ≠ some '\n') : noCRLF (x ++ y) = true := by
  induction x with
  | nil => exact hy
  | cons c x ih =>
    cases x with
    | nil =>
      show (!(c == '\r' && y.head? == some '\n') && noCRLF y) = true
      rw [Bool.and_eq_true]
      refine ⟨?_, hy⟩
      rcases hxy with h | h
      · have hc : c ≠ '\r' := by simpa using h
        simp [hc]
      · simp [h]
    | cons d x =>
      have hx2 : noCRLF (d :: x) = true := noCRLF_tail _ _ hx
      have hlast : (d :: x).getLast? ≠ some '\r' ∨ y.head? ≠ some '\n' := by
        simpa [List.getLast?_cons_cons] using hxy
      have hrec := ih hx2 hlast
      have hfirst : (!(c == '\r' && (some d == some '\n'))) = true := by
        have h1 : (!(c == '\r' && (some d == some '\n')) && noCRLF (d :: x)) = true := hx
        exact (Bool.and_eq_true _ _ ▸ h1).1
      show (!(c == '\r' && (some d == some '\n')) && noCRLF (d :: x ++ y)) = true
      rw [Bool.and_eq_true]
      exact ⟨hfirst, hrec⟩

theorem head_escapeQuoted (cs : List Char) : (escapeQuoted cs).head? = cs.head? := by
  cases cs with
  | nil => rfl
  | cons c cs =>
    by_cases hc : c = '"'
    · simp [escapeQuoted, hc]
    · simp [escapeQuoted, hc]

theorem noCRLF_escapeQuoted (f : List Char) (h : noCRLF f = true) :
    noCRLF (escapeQuoted f) = true := by
  induction f with
  | nil => rfl
  | cons c f ih =>
    have ih2 := ih (noCRLF_tail _ _ h)
    by_cases hc : c = '"'
    · subst hc
      simp only [escapeQuoted, if_true]
      exact noCRLF_cons_of_ne _ _ (by decide) (noCRLF_cons_of_ne _ _ (by decide) ih2)
    · simp only [escapeQuoted, hc, if_false]
      simp only [noCRLF, Bool.and_eq_true, Bool.not_eq_true'] at h ⊢
      exact ⟨by rw [head_escapeQuoted]; exact h.1, ih2⟩

theorem noCRLF_writeField (f : List Char) (h : noCRLF f = true) :
    noCRLF (writeField f) = true ∧ (writeField f).getLast? ≠ some '\r' := by
  by_cases hq : fieldNeedsQuotes f = true
  · have hw : writeField f = '"' :: (escapeQuoted f ++ ['"']) := by simp [writeField, hq]
    rw [hw]
    constructor
    · refine noCRLF_cons_of_ne _ _ (by decide) ?_
      exact noCRLF_append _ _ (noCRLF_escapeQuoted f h) (by decide) (Or.inr (by decide))
    · rw [← List.cons_append, List.getLast?_append]
      simp
  · have hq' : fieldNeedsQuotes f = false := by simpa using hq
    obtain ⟨_, h2, _⟩ := unquoted_chars f hq'
    have hw : writeField f = f := by simp [writeField, hq']
    rw [hw]
    refine ⟨h, ?_⟩
    intro e
    exact h2 (List.mem_of_mem_getLast? e)

/-- Written fields without carriage return before line feed give a text without. -/
theorem noCRLF_written :
    ∀ (fs : List (List Char)) (R : List Char), (∀ f ∈ fs, noCRLF f = true) →
      noCRLF R = true → noCRLF (writeFields fs ++ '\n' :: R) = true := by
  intro fs
  induction fs with
  | nil => intro R _ hR; exact noCRLF_cons_of_ne _ _ (by decide) hR
  | cons f fs ih =>
    intro R hfs hR
    have hf := noCRLF_writeField f (hfs f (List.mem_cons_self _ _))
    cases fs with
    | nil =>
      simp only [writeFields]
      exact noCRLF_append _ _ hf.1 (noCRLF_cons_of_ne _ _ (by decide) hR) (Or.inl hf.2)
    | cons g gs =>
      have hrest := ih R (fun x hx => hfs x (List.mem_cons_of_mem _ hx)) hR
      have hw : writeFields (f :: g :: gs) ++ '\n' :: R =
          writeField f ++ ',' :: (writeFields (g :: gs) ++ '\n' :: R) := by
        simp [writeFields]
      rw [hw]
      exact noCRLF_append _ _ hf.1 (noCRLF_cons_of_ne _ _ (by decide) hrest) (Or.inl hf.2)

theorem noCRLF_writeAll (rows : List (List String))
    (h : ∀ r ∈ rows, ∀ f ∈ r, noCRLF f.data = true) : noCRLF (writeAll rows) = true := by
  induction rows with
  | nil => rfl
  | cons r rows ih =>
    have hrest := ih fun x hx => h x (List.mem_cons_of_mem _ hx)
    have hw : writeAll (r :: rows) =
        writeFields (r.map String.data) ++ '\n' :: writeAll rows := by
      simp [writeAll, Writer.Write]
    rw [hw]
    apply noCRLF_written _ _ _ hrest
    intro f hf
    obtain ⟨x, hx, rfl⟩ := List.mem_map.1 hf
    exact h r (List.mem_cons_self _ _) x hx

theorem length_le_writeAll (rows : List (List String)) :
    rows.length ≤ (writeAll rows).length := by
  induction rows with
  | nil => simp
  | cons r rows ih =>
    have hw : writeAll (r :: rows) =
        writeFields (r.map String.data) ++ '\n' :: writeAll rows := by
      simp [writeAll, Writer.Write]
    rw [hw]
    simp only [List.length_cons, List.length_append]
    omega

/-- The loop of `ReadAll` on the text written for records of `n` fields. -/
theorem readAllLoop_written (n : Nat) (hn : 2 ≤ n) :
    ∀ (rows : List (List String)) (fuel fieldsPerRecord : Nat) (acc : List (List String)),
      rows.length < fuel → (fieldsPerRecord = 0 ∨ fieldsPerRecord = n) →
      (∀ r ∈ rows, r.length = n) → noCRLF (writeAll rows) = true →
      readAllLoop fuel fieldsPerRecord acc (writeAll rows) = .ok (acc ++ rows) := by
  intro rows
  induction rows with
  | nil =>
    intro fuel fpr acc hfuel _ _ _
    obtain ⟨k, rfl⟩ : ∃ k, fuel = k + 1 := ⟨fuel - 1, by simp at hfuel; omega⟩
    simp [writeAll, readAllLoop, readRecord, nextLine, readLine, readSlice]
  | cons r rows ih =>
    intro fuel fpr acc hfuel hfpr hlen hcr
    obtain ⟨k, rfl⟩ : ∃ k, fuel = k + 1 := ⟨fuel - 1, by simp at hfuel; omega⟩
    have hw : writeAll (r :: rows) =
        writeFields (r.map String.data) ++ '\n' :: writeAll rows := by
      simp [writeAll, Writer.Write]
    have hr : r.length = n := hlen r (List.mem_cons_self _ _)
    obtain ⟨a, b, cs, rfl⟩ : ∃ a b cs, r = a :: b :: cs := by
      match r, hr with
      | [], h => simp at h; omega
      | [_], h => simp at h; omega
      | a :: b :: cs, _ => exact ⟨a, b, cs, rfl⟩
    rw [hw] at hcr ⊢
    simp only [List.map_cons] at hcr ⊢
    have hback : (a.data :: b.data :: cs.map String.data).map String.mk = a :: b :: cs := by
      simp [List.map_map, Function.comp_def]
    have hlen2 : (a.data :: b.data :: cs.map String.data).length = n := by
      simpa using hr
    have hrest := fun fpr' (h : fpr' = 0 ∨ fpr' = n) =>
      ih k fpr' (acc ++ [a :: b :: cs]) (by simp at hfuel; omega) h
        (fun x hx => hlen x (List.mem_cons_of_mem _ hx))
        (noCRLF_tail _ _ (noCRLF_suffix _ _ hcr))
    rw [readAllLoop, readRecord_written _ _ _ _ _ hcr]
    rcases hfpr with h0 | h0
    · subst h0
      simp only [gt_iff_lt, Nat.lt_irrefl, if_false, hback]
      rw [hlen2, hrest n (Or.inr rfl)]
      simp
    · have hpos : fpr > 0 := by omega
      rw [if_pos hpos, if_neg (by rw [hlen2, h0]; simp)]
      simp only [hback]
      rw [hrest _ (Or.inr h0)]
      simp

/-- Round trip through `encoding/csv`: records of one length (two or more
fields), none of whose fields has a carriage return directly before a line
feed, are read back from the text written for them. -/
theorem ReadAll_writeAll (rows : List (List String)) (n : Nat) (hn : 2 ≤ n)
    (hlen : ∀ r ∈ rows, r.length = n)
    (hcr : ∀ r ∈ rows, ∀ f ∈ r, noCRLF f.data = true) :
    ReadAll (writeAll rows) = .ok rows := by
  unfold ReadAll
  rw [readAllLoop_written n hn rows _ 0 [] (by have := length_le_writeAll rows; omega)
    (Or.inl rfl) hlen (noCRLF_writeAll rows hcr)]
  simp

/-- The writer on examples: plain fields are written as they are; a field
with a leading space, a comma, a quote, a carriage return or a line feed is
quoted, its quotes doubled; the empty field is written empty. -/
theorem Writer_Write_examples :
    String.mk (Writer.Write ["a b", " c", "d,e", "f\"g", "", "h\r\ni", "\\."]) =
      "a b,\" c\",\"d,e\",\"f\"\"g\",,\"h\r\ni\",\"\\.\"\n" ∧
    String.mk (Writer.Write ["svc-a", "http://x/", "GET", "200", "30s", "3"]) =
      "svc-a,http://x/,GET,200,30s,3\n" ∧
    String.mk (Writer.Write ["\ta", "\u00a0b", "\u2003c", "\u3000d", "e f", "\u00e9"]) =
      "\"\ta\",\"\u00a0b\",\"\u2003c\",\"\u3000d\",e f,\u00e9\n" := by
  refine ⟨?_, ?_, ?_⟩ <;> decide

/-- The reader on examples: lines ending in carriage return and line feed,
also inside a quoted field, lose the carriage return; empty lines are skipped;
a last line without line feed is read; a record with another number of fields
than the first, a quote in an unquoted field and a quoted field that is not
closed properly are errors. -/
theorem ReadAll_examples :
    ReadAll "a,b\n".data = .ok [["a", "b"]] ∧
    ReadAll "a,b\r\nc,d\r\n".data = .ok [["a", "b"], ["c", "d"]] ∧
    ReadAll "\"GE\r\nT\",x\n".data = .ok [["GE\nT", "x"]] ∧
    ReadAll "\"a\"\"b\",\"c\nd\"\n".data = .ok [["a\"b", "c\nd"]] ∧
    ReadAll "a\n\nb\n".data = .ok [["a"], ["b"]] ∧
    ReadAll "a,b".data = .ok [["a", "b"]] ∧
    ReadAll "a\r".data = .ok [["a"]] ∧
    ReadAll "".data = .ok [] ∧
    ReadAll " a, b\n".data = .ok [[" a", " b"]] ∧
    ReadAll "a,b\nc\n".data = .error .ErrFieldCount ∧
    ReadAll "a\"b\n".data = .error .ErrBareQuote ∧
    ReadAll "\"a\"b\n".data = .error .ErrQuote ∧
    ReadAll "\"a".data = .error .ErrQuote := by
  refine ⟨?_, ?_, ?_, ?_, ?_, ?_, ?_, ?_, ?_, ?_, ?_, ?_, ?_⟩ <;> decide

/-! ## Persistence: writing and reading back -/

/-- Without a failing write the loop hands every record to the writer. -/
theorem writeRows_none {U D : Type} (c : Codec U D) :
    ∀ (l : List (Sigma fun _ : String => Endpoint U D)) (i : Nat) (buf : List Char),
      writeRows c Option.none i l buf = .ok (buf ++ writeAll (l.map fun e => record c e.2)) := by
  intro l
  induction l with
  | nil => intro i buf; simp [writeRows, writeAll]
  | cons e es ih => intro i buf; simp [writeRows, ih, writeAll]

/-- When nothing fails, `writeConfig` leaves the text of one row per record in
the file, in the order of the `range`, and returns no error. -/
theorem writeConfig_none {U D : Type} (c : Codec U D) (range : RangeOrder U D)
    (config : Config U D) (disk : Disk) :
    writeConfig c range Faults.none config disk =
      (some (String.mk (writeAll ((range.visit config.entries).map fun e => record c e.2))),
        Option.none) := by
  simp [writeConfig, Faults.none, writeRows_none]

/-- Reading rows that decode to the records they were built from stores the
records one after the other. -/
theorem readRows_map {U D : Type} (c : Codec U D) :
    ∀ (l : List (Sigma fun _ : String => Endpoint U D)) (config : Config U D),
      (∀ x ∈ l, c.EndpointFromRecord (record c x.2) = some x.2 ∧ x.2.Identifier = x.1) →
      readRows c (l.map fun e => record c e.2) config =
        some (l.foldl (fun acc x => acc.insert x.1 x.2) config) := by
  intro l
  induction l with
  | nil => intro config _; rfl
  | cons x xs ih =>
    intro config h
    have hx := h x (List.mem_cons_self _ _)
    simp only [List.map_cons, readRows, hx.1, hx.2, List.foldl_cons]
    exact ih _ fun y hy => h y (List.mem_cons_of_mem _ hy)

/-- Looking a key up after storing a duplicate-free list of entries. -/
theorem lookup_foldl_insert {U D : Type} (k : String) :
    ∀ (l : List (Sigma fun _ : String => Endpoint U D)) (config : Config U D),
      l.NodupKeys →
      (l.foldl (fun acc x => acc.insert x.1 x.2) config).lookup k =
        ((l.dlookup k).orElse fun _ => config.lookup k) := by
  intro l
  induction l with
  | nil => intro config _; rfl
  | cons x xs ih =>
    intro config hnd
    obtain ⟨hx, hxs⟩ := List.nodupKeys_cons.1 hnd
    rw [List.foldl_cons, ih _ hxs]
    by_cases hk : k = x.1
    · subst hk
      have hnone : xs.dlookup x.1 = Option.none := List.dlookup_eq_none.2 hx
      obtain ⟨a, b⟩ := x
      simp [hnone, List.dlookup_cons_eq, AList.lookup_insert]
    · rw [List.dlookup_cons_ne _ _ hk, AList.lookup_insert_ne hk]

/-! ## The handlers, branch by branch -/

/-- A path naming a valid identifier yields that identifier. -/
theorem extract_valid (id : String) (h : ValidIdentifier id) :
    extractEndpointIdentifier ("/endpoints/" ++ id) = .ok id :=
  (extract_ok_iff _ _).2 ⟨rfl, h⟩

/-- The collection path `/endpoints/` names no identifier. -/
theorem extract_collection :
    ∃ msg, extractEndpointIdentifier "/endpoints/" = .error msg :=
  ⟨_, by rw [extractEndpointIdentifier_eq]; exact if_neg (by decide)⟩

/-- Erasing a key that is not in the map changes nothing. -/
theorem erase_absent {U D : Type} (config : Config U D) (k : String)
    (h : config.lookup k = Option.none) : config.erase k = config := by
  apply AList.ext
  exact List.kerase_of_not_mem_keys (AList.lookup_eq_none.1 h)

/-- An unparsable body is answered before the map is looked at. -/
theorem postCheck_unparsable {U D : Type} (c : Codec U D) (config : Config U D)
    (url body : String) (hbody : c.EndpointFromJSON body = Option.none) :
    postCheck c config url body = .respond (writeHeader StatusBadRequest) := by
  simp [postCheck, hbody]

/-- An identifier that is not in the map is created, whatever the path. -/
theorem postCheck_absent {U D : Type} (c : Codec U D) (config : Config U D)
    (url body : String) (e : Endpoint U D) (hbody : c.EndpointFromJSON body = some e)
    (habs : config.lookup e.Identifier = Option.none) :
    postCheck c config url body = .write e StatusCreated := by
  simp [postCheck, hbody, habs]

/-- An identifier that is in the map is replaced through its own path only. -/
theorem postCheck_present {U D : Type} (c : Codec U D) (config : Config U D)
    (url body : String) (e : Endpoint U D) (hbody : c.EndpointFromJSON body = some e)
    (hpres : (config.lookup e.Identifier).isSome = true) :
    postCheck c config url body =
      match extractEndpointIdentifier url with
      | .error _ => .respond (writeHeader StatusBadRequest)
      | .ok identifierPathParam =>
        if identifierPathParam ≠ e.Identifier then .respond (writeHeader StatusBadRequest)
        else .write e StatusNoContent := by
  simp [postCheck, hbody, hpres]

/-- The write of a POST when the file system accepts everything. -/
theorem postCommit_none {U D : Type} (c : Codec U D) (range : RangeOrder U D)
    (s : ServerState U D) (e : Endpoint U D) (status : Nat) :
    postCommit c range Faults.none s e status =
      (writeHeader status,
        { config := s.config.insert e.Identifier e
          disk := some (String.mk (writeAll
            ((range.visit (s.config.insert e.Identifier e).entries).map
              fun x => record c x.2))) }) := by
  simp [postCommit, writeConfig_none]

/-- The write of a POST never answers 400 when it was to report 201 or 204. -/
theorem postCommit_status {U D : Type} (c : Codec U D) (range : RangeOrder U D)
    (faults : Faults) (s : ServerState U D) (e : Endpoint U D) (status : Nat)
    (hs : status = StatusCreated ∨ status = StatusNoContent) :
    (postCommit c range faults s e status).1.status ≠ StatusBadRequest := by
  simp only [postCommit, writeHeader]
  split_ifs
  · decide
  · rcases hs with rfl | rfl <;> decide

/-- The status a POST is to report on success is 201 or 204. -/
theorem postCheck_write_status {U D : Type} (c : Codec U D) (config : Config U D)
    (url body : String) (e : Endpoint U D) (status : Nat)
    (h : postCheck c config url body = .write e status) :
    status = StatusCreated ∨ status = StatusNoContent := by
  unfold postCheck at h
  split at h
  · cases h
  · dsimp only at h
    split_ifs at h
    · split at h
      · cases h
      · split_ifs at h
        · cases h; exact Or.inr rfl
    · cases h; exact Or.inl rfl

/-- A POST answered with 400 leaves map and file as they were. -/
theorem postEndpoint_badRequest {U D : Type} (c : Codec U D) (range : RangeOrder U D)
    (faults : Faults) (s : ServerState U D) (url body : String)
    (h : (postEndpoint c range faults s url body).1.status = StatusBadRequest) :
    (postEndpoint c range faults s url body).2 = s := by
  unfold postEndpoint at h ⊢
  cases hc : postCheck c s.config url body with
  | respond r => rfl
  | write e status =>
    rw [hc] at h
    exact absurd h (postCommit_status c range faults s e status
      (postCheck_write_status c s.config url body e status hc))

/-- A GET leaves map and file as they were. -/
theorem getEndpoint_state {U D : Type} (c : Codec U D) (s : ServerState U D) (url : String) :
    (getEndpoint c s url).2 = s := by
  unfold getEndpoint
  split
  · rfl
  · split
    · split <;> rfl
    · rfl

/-- A DELETE answered with 400 leaves map and file as they were. -/
theorem deleteEndpoint_badRequest {U D : Type} (s : ServerState U D) (url : String)
    (h : (deleteEndpoint s url).1.status = StatusBadRequest) :
    (deleteEndpoint s url).2 = s := by
  unfold deleteEndpoint at h ⊢
  split
  · rfl
  · rename_i id hid
    rw [hid] at h
    simp [writeHeader] at h

/-- The listing leaves map and file as they were. -/
theorem getEndpoints_state {U D : Type} (c : Codec U D) (range : RangeOrder U D)
    (s : ServerState U D) (method : String) : (getEndpoints c range s method).2 = s := by
  unfold getEndpoints
  split_ifs
  · rfl
  · dsimp only
    split <;> rfl

/-- A failing write of one of the rows ends the loop with an error. -/
theorem writeRows_fails {U D : Type} (c : Codec U D) (k : Nat) :
    ∀ (l : List (Sigma fun _ : String => Endpoint U D)) (i : Nat) (buf : List Char),
      i ≤ k → k < i + l.length →
      ∃ msg, writeRows c (some k) i l buf = .error msg := by
  intro l
  induction l with
  | nil => intro i buf h1 h2; simp at h2; omega
  | cons e es ih =>
    intro i buf h1 h2
    by_cases hik : k = i
    · subst hik
      exact ⟨"write endpoint \"" ++ e.2.Identifier ++ "\"", by simp [writeRows]⟩
    · have hne : ¬ (some k = some i) := fun h => hik (Option.some.inj h)
      obtain ⟨msg, hmsg⟩ := ih (i + 1) (buf ++ Writer.Write (record c e.2)) (by omega)
        (by simp only [List.length_cons] at h2; omega)
      exact ⟨msg, by simp only [writeRows, hne, if_false, hmsg]⟩

/-- The failures `writeConfig` does return are reported: when the file cannot
be created, or the write of one of the rows fails, a POST that reached the
write is answered 500, and the map holds the posted record all the same. -/
theorem postCommit_failure_reported {U D : Type} (c : Codec U D) (range : RangeOrder U D)
    (faults : Faults) (s : ServerState U D) (e : Endpoint U D) (status : Nat)
    (hfail : faults.create = true ∨
      ∃ k, faults.write = some k ∧ k < (s.config.insert e.Identifier e).entries.length) :
    (postCommit c range faults s e status).1 = writeHeader StatusInternalServerError ∧
    (postCommit c range faults s e status).2.config.lookup e.Identifier = some e := by
  refine ⟨?_, AList.lookup_insert _⟩
  by_cases hcreate : faults.create = true
  · simp [postCommit, writeConfig, hcreate]
  · rcases hfail with h | ⟨k, hk, hlt⟩
    · exact absurd h hcreate
    · have hlen : k < 0 + (range.visit (s.config.insert e.Identifier e).entries).length := by
        rw [(range.perm _).length_eq]; omega
      obtain ⟨msg, hmsg⟩ := writeRows_fails c k _ 0 [] (Nat.zero_le _) hlen
      simp only [postCommit, writeConfig, hcreate, hk, hmsg]
      rfl

/-- Every row of `writeConfig` has six fields. -/
theorem length_record {U D : Type} (c : Codec U D) (e : Endpoint U D) :
    (record c e).length = 6 := rfl

/-- What `writeConfig` writes without a fault is read back row by row, provided
no field of a row has a carriage return directly before a line feed. -/
theorem ReadAll_written_config {U D : Type} (c : Codec U D)
    (l : List (Sigma fun _ : String => Endpoint U D))
    (hcr : ∀ x ∈ l, ∀ f ∈ record c x.2, noCRLF f.data = true) :
    ReadAll (writeAll (l.map fun e => record c e.2)) = .ok (l.map fun e => record c e.2) := by
  apply ReadAll_writeAll _ 6 (by decide)
  · intro r hr
    obtain ⟨e, _, rfl⟩ := List.mem_map.1 hr
    rfl
  · intro r hr
    obtain ⟨e, he, rfl⟩ := List.mem_map.1 hr
    exact hcr e he

/-- A POST that reaches the write with nothing failing leaves the file holding
exactly the rows of the new map, provided no field of a row of the new map has
a carriage return directly before a line feed. -/
theorem postCommit_persists {U D : Type} (c : Codec U D) (range : RangeOrder U D)
    (s : ServerState U D) (e : Endpoint U D) (status : Nat)
    (hcr : ∀ x ∈ (s.config.insert e.Identifier e).entries,
      ∀ f ∈ record c x.2, noCRLF f.data = true) :
    FileHoldsMap c (postCommit c range Faults.none s e status).2 := by
  rw [postCommit_none]
  refine ⟨_, ?_, (range.perm _).map _⟩
  show _ ∈ rowsOnDisk (some _)
  simp only [rowsOnDisk]
  rw [ReadAll_written_config c _ fun x hx => hcr x ((range.perm _).mem_iff.1 hx)]
  rfl

/-- The race of two POSTs for one new identifier, for any codec: when both
lookups come before both insertions, both requests are answered 201. -/
theorem interleaved_posts_both_created {U D : Type} (c : Codec U D) (range : RangeOrder U D)
    (s : ServerState U D) (url₁ url₂ body₁ body₂ : String) (e₁ e₂ : Endpoint U D)
    (h₁ : c.EndpointFromJSON body₁ = some e₁) (h₂ : c.EndpointFromJSON body₂ = some e₂)
    (habs₁ : s.config.lookup e₁.Identifier = Option.none)
    (habs₂ : s.config.lookup e₂.Identifier = Option.none) :
    (runPosts c range Faults.none [false, true, false, true]
        (s, .start url₁ body₁, .start url₂ body₂)).2.1.response =
      some (writeHeader StatusCreated) ∧
    (runPosts c range Faults.none [false, true, false, true]
        (s, .start url₁ body₁, .start url₂ body₂)).2.2.response =
      some (writeHeader StatusCreated) := by
  simp [runPosts, PostThread.step, postCheck_absent c s.config _ _ _ h₁ habs₁,
    postCheck_absent c s.config _ _ _ h₂ habs₂, postCommit_none, PostThread.response]

/-! ## The claims -/

/-- C1: `extractEndpointIdentifier` succeeds exactly on the strings
`"/endpoints/" ++ id` where `id` is a lowercase letter followed by one or more
characters from lowercase letters, digits and `-`, and then returns exactly
`id`; on every other string it returns an error. -/
theorem extractEndpointIdentifier_spec (s : String) :
    (∀ id, extractEndpointIdentifier s = .ok id ↔
      (s = "/endpoints/" ++ id ∧ ValidIdentifier id)) ∧
    ((∃ msg, extractEndpointIdentifier s = .error msg) ↔
      ¬ ∃ id, s = "/endpoints/" ++ id ∧ ValidIdentifier id) :=
  ⟨fun id => extract_ok_iff s id, extract_error_iff s⟩

/-- The rejected shapes C1 lists: empty identifier, single character,
uppercase or underscore, trailing slash, query string, different prefix. -/
theorem extractEndpointIdentifier_rejects :
    (extractEndpointIdentifier "/endpoints/").toOption = none ∧
    (extractEndpointIdentifier "/endpoints/a").toOption = none ∧
    (extractEndpointIdentifier "/endpoints/Bad_ID").toOption = none ∧
    (extractEndpointIdentifier "/endpoints/svc-a/").toOption = none ∧
    (extractEndpointIdentifier "/endpoints/svc-a?x=1").toOption = none ∧
    (extractEndpointIdentifier "/endpoint/svc-a").toOption = none ∧
    (extractEndpointIdentifier "/endpoints/svc-a").toOption = some "svc-a" := by
  decide

/-- C2, as stated, fails: the store holds one record whose method is `GE`,
carriage return, line feed, `T`. Its key is its identifier and the codec
decodes its row to the record, but the reader of `encoding/csv` turns the
carriage return and line feed inside the quoted field into a line feed, so the
store read back holds the method `GE`, line feed, `T` and no store read back
agrees with the one written. -/
theorem write_read_crlf_changed :
    (∀ k e, (AList.insert "svc-a" { svcA 3 with Method := "GE\r\nT" } ∅ :
        Config String String).lookup k = some e → e.Identifier = k) ∧
    (∀ k e, (AList.insert "svc-a" { svcA 3 with Method := "GE\r\nT" } ∅ :
        Config String String).lookup k = some e →
      demoCodec.EndpointFromRecord (record demoCodec e) = some e) ∧
    (writeConfig demoCodec (inOrder _ _) Faults.none
        (AList.insert "svc-a" { svcA 3 with Method := "GE\r\nT" } ∅) Option.none) =
      (some "svc-a,http://x/,\"GE\r\nT\",200,30s,3\n", Option.none) ∧
    (mustReadConfig demoCodec (some "svc-a,http://x/,\"GE\r\nT\",200,30s,3\n")).map
        (fun loaded => loaded.lookup "svc-a") =
      some (some { svcA 3 with Method := "GE\nT" }) ∧
    ¬ ∃ loaded, mustReadConfig demoCodec
        (writeConfig demoCodec (inOrder _ _) Faults.none
          (AList.insert "svc-a" { svcA 3 with Method := "GE\r\nT" } ∅) Option.none).1 =
          some loaded ∧
        ∀ k, loaded.lookup k =
          (AList.insert "svc-a" { svcA 3 with Method := "GE\r\nT" } ∅ :
            Config String String).lookup k := by
  have hentry : ∀ k e, (AList.insert "svc-a" { svcA 3 with Method := "GE\r\nT" } ∅ :
      Config String String).lookup k = some e →
      k = "svc-a" ∧ e = { svcA 3 with Method := "GE\r\nT" } := by
    intro k e h
    have hmem := AList.mem_lookup_iff.1 (Option.mem_def.2 h)
    simp [AList.insert_entries] at hmem
    obtain ⟨rfl, h2⟩ := hmem
    cases h2
    exact ⟨rfl, rfl⟩
  have hwrite : (writeConfig demoCodec (inOrder _ _) Faults.none
      (AList.insert "svc-a" { svcA 3 with Method := "GE\r\nT" } ∅) Option.none) =
      (some "svc-a,http://x/,\"GE\r\nT\",200,30s,3\n", Option.none) := by decide
  have hread : (mustReadConfig demoCodec
      (some "svc-a,http://x/,\"GE\r\nT\",200,30s,3\n")).map
        (fun loaded => loaded.lookup "svc-a") =
      some (some { svcA 3 with Method := "GE\nT" }) := by decide
  refine ⟨?_, ?_, hwrite, hread, ?_⟩
  · intro k e h
    obtain ⟨rfl, rfl⟩ := hentry k e h
    rfl
  · intro k e h
    obtain ⟨rfl, rfl⟩ := hentry k e h
    decide
  · rintro ⟨loaded, hl, hall⟩
    rw [hwrite] at hl
    rw [hl] at hread
    have h1 := hall "svc-a"
    rw [AList.lookup_insert] at h1
    simp only [Option.map_some'] at hread
    rw [h1] at hread
    exact absurd hread (by decide)

/-- C2, amended: round trip of persistence. For every store whose keys are the
identifiers of its records, whose rows have no field with a carriage return
directly before a line feed, and a record codec whose row decoding inverts the
six-field row encoding on the records of the store: writing the store with
`writeConfig` (nothing failing, any iteration order, any previous file) and
reading the file with `mustReadConfig` returns a store, and that store has the
same identifiers with equal records. -/
theorem write_read_roundtrip {U D : Type} (c : Codec U D) (range : RangeOrder U D)
    (config : Config U D) (disk : Disk)
    (hkey : ∀ k e, config.lookup k = some e → e.Identifier = k)
    (hcodec : ∀ k e, config.lookup k = some e → c.EndpointFromRecord (record c e) = some e)
    (hcrlf : ∀ k e, config.lookup k = some e → ∀ f ∈ record c e, noCRLF f.data = true) :
    (writeConfig c range Faults.none config disk).2 = Option.none ∧
    ∃ loaded, mustReadConfig c (writeConfig c range Faults.none config disk).1 = some loaded ∧
      ∀ k, loaded.lookup k = config.lookup k := by
  rw [writeConfig_none]
  refine ⟨rfl,
    (range.visit config.entries).foldl (fun acc x => acc.insert x.1 x.2) ∅, ?_, ?_⟩
  · show mustReadConfig c (some _) = _
    have hlook : ∀ x ∈ range.visit config.entries, config.lookup x.1 = some x.2 := by
      intro x hx
      have hx' : x ∈ config.entries := (range.perm _).mem_iff.1 hx
      obtain ⟨a, b⟩ := x
      exact AList.mem_lookup_iff.2 hx'
    have hmem : ∀ x ∈ range.visit config.entries,
        c.EndpointFromRecord (record c x.2) = some x.2 ∧ x.2.Identifier = x.1 :=
      fun x hx => ⟨hcodec _ _ (hlook x hx), hkey _ _ (hlook x hx)⟩
    simp only [mustReadConfig,
      ReadAll_written_config c _ fun x hx => hcrlf _ _ (hlook x hx)]
    exact readRows_map c _ ∅ hmem
  · intro k
    have hnd : (range.visit config.entries).NodupKeys :=
      (List.perm_nodupKeys (range.perm _)).2 config.nodupKeys
    rw [lookup_foldl_insert k _ ∅ hnd,
      List.perm_dlookup k hnd config.nodupKeys (range.perm _)]
    show (config.lookup k).orElse _ = _
    cases config.lookup k <;> rfl

/-- C2, amended, at a concrete input: the store holding `svc-a`, written in
reverse order over an older file and read back with the demonstration codec. -/
theorem write_read_roundtrip_witness :
    (writeConfig demoCodec (reversed _ _) Faults.none
        (AList.insert "svc-a" (svcA 3) ∅) (some "old\n")).2 = Option.none ∧
    ∃ loaded, mustReadConfig demoCodec
        (writeConfig demoCodec (reversed _ _) Faults.none
          (AList.insert "svc-a" (svcA 3) ∅) (some "old\n")).1 = some loaded ∧
      ∀ k, loaded.lookup k = (AList.insert "svc-a" (svcA 3) ∅ : Config String String).lookup k :=
  write_read_roundtrip demoCodec (reversed _ _) (AList.insert "svc-a" (svcA 3) ∅)
    (some "old\n")
    (by
      intro k e h
      have hmem := AList.mem_lookup_iff.1 (Option.mem_def.2 h)
      simp [AList.insert_entries] at hmem
      obtain ⟨rfl, h2⟩ := hmem
      cases h2; rfl)
    (by
      intro k e h
      have hmem := AList.mem_lookup_iff.1 (Option.mem_def.2 h)
      simp [AList.insert_entries] at hmem
      obtain ⟨rfl, h2⟩ := hmem
      cases h2; decide)
    (by
      intro k e h
      have hmem := AList.mem_lookup_iff.1 (Option.mem_def.2 h)
      simp [AList.insert_entries] at hmem
      obtain ⟨rfl, h2⟩ := hmem
      cases h2; decide)

/-- C4: POST to a specific path. For every store, every valid identifier `id`
and every body that parses to a record `e` with identifier `id`, a POST to
`/endpoints/id` with nothing failing in the file system answers 201 when `id`
was absent and 204 when it was present; afterwards the store maps `id` to `e`,
every other identifier is as before, and a GET of `/endpoints/id` answers 200
with the JSON form of `e` (whenever the codec renders `e`). -/
theorem postEndpoint_specific_path {U D : Type} (c : Codec U D) (range : RangeOrder U D)
    (s : ServerState U D) (id body : String) (e : Endpoint U D)
    (hid : ValidIdentifier id) (hbody : c.EndpointFromJSON body = some e)
    (he : e.Identifier = id) :
    (s.config.lookup id = Option.none →
      (postEndpoint c range Faults.none s ("/endpoints/" ++ id) body).1 =
        writeHeader StatusCreated) ∧
    ((s.config.lookup id).isSome = true →
      (postEndpoint c range Faults.none s ("/endpoints/" ++ id) body).1 =
        writeHeader StatusNoContent) ∧
    (postEndpoint c range Faults.none s ("/endpoints/" ++ id) body).2.config.lookup id =
      some e ∧
    (∀ k, k ≠ id →
      (postEndpoint c range Faults.none s ("/endpoints/" ++ id) body).2.config.lookup k =
        s.config.lookup k) ∧
    (∀ payload, c.JSON e = some payload →
      (getEndpoint c (postEndpoint c range Faults.none s ("/endpoints/" ++ id) body).2
        ("/endpoints/" ++ id)).1 = { status := StatusOK, body := some payload }) := by
  subst he
  have hpost : ∃ status,
      postEndpoint c range Faults.none s ("/endpoints/" ++ e.Identifier) body =
        postCommit c range Faults.none s e status ∧
      (s.config.lookup e.Identifier = Option.none → status = StatusCreated) ∧
      ((s.config.lookup e.Identifier).isSome = true → status = StatusNoContent) := by
    cases hl : s.config.lookup e.Identifier with
    | none =>
      refine ⟨StatusCreated, ?_, fun _ => rfl, fun h => (by cases h)⟩
      simp [postEndpoint, postCheck_absent c s.config _ body e hbody hl]
    | some old =>
      refine ⟨StatusNoContent, ?_, (fun h => (by cases h)), fun _ => rfl⟩
      have hpres : (s.config.lookup e.Identifier).isSome = true := by rw [hl]; rfl
      simp [postEndpoint, postCheck_present c s.config _ body e hbody hpres,
        extract_valid _ hid]
  obtain ⟨status, hpost, hcreated, hreplaced⟩ := hpost
  rw [hpost, postCommit_none]
  refine ⟨fun h => by rw [hcreated h], fun h => by rw [hreplaced h],
    AList.lookup_insert _, fun k hk => AList.lookup_insert_ne hk, ?_⟩
  intro payload hpayload
  simp [getEndpoint, extract_valid _ hid, AList.lookup_insert, hpayload]

/-- C4 at a concrete input: the POST of the scenario to `/endpoints/svc-a`. -/
theorem postEndpoint_specific_path_witness :
    (postEndpoint demoCodec (inOrder _ _) Faults.none (emptyState _ _)
        ("/endpoints/" ++ "svc-a") bodyA3).1 = writeHeader StatusCreated ∧
    (getEndpoint demoCodec
        (postEndpoint demoCodec (inOrder _ _) Faults.none (emptyState _ _)
          ("/endpoints/" ++ "svc-a") bodyA3).2
        ("/endpoints/" ++ "svc-a")).1 =
      { status := StatusOK, body := some "svc-a,http://x/,GET,200,30s,3" } :=
  have h := postEndpoint_specific_path demoCodec (inOrder _ _) (emptyState _ _) "svc-a"
    bodyA3 (svcA 3) ((groupMatches_iff "svc-a").1 (by decide)) (by decide) rfl
  ⟨h.1 rfl, h.2.2.2.2 _ (by decide)⟩

/-- C7: DELETE. For every store and every valid identifier `id`, a DELETE of
`/endpoints/id` answers 204; afterwards `id` is absent and every other entry
is as before; when `id` was already absent nothing changes; a second DELETE
gives the same response and state as the first; and a GET of `/endpoints/id`
after the DELETE answers 404. -/
theorem deleteEndpoint_spec {U D : Type} (c : Codec U D) (s : ServerState U D) (id : String)
    (hid : ValidIdentifier id) :
    (deleteEndpoint s ("/endpoints/" ++ id)).1 = writeHeader StatusNoContent ∧
    (deleteEndpoint s ("/endpoints/" ++ id)).2.config.lookup id = Option.none ∧
    (∀ k, k ≠ id →
      (deleteEndpoint s ("/endpoints/" ++ id)).2.config.lookup k = s.config.lookup k) ∧
    (s.config.lookup id = Option.none → (deleteEndpoint s ("/endpoints/" ++ id)).2 = s) ∧
    deleteEndpoint (deleteEndpoint s ("/endpoints/" ++ id)).2 ("/endpoints/" ++ id) =
      deleteEndpoint s ("/endpoints/" ++ id) ∧
    (getEndpoint c (deleteEndpoint s ("/endpoints/" ++ id)).2 ("/endpoints/" ++ id)).1 =
      writeHeader StatusNotFound := by
  have hdel : ∀ t : ServerState U D, deleteEndpoint t ("/endpoints/" ++ id) =
      (writeHeader StatusNoContent, { t with config := t.config.erase id }) := by
    intro t
    simp [deleteEndpoint, extract_valid _ hid]
  rw [hdel, hdel]
  refine ⟨rfl, AList.lookup_erase _ _, fun k hk => AList.lookup_erase_ne hk, ?_, ?_, ?_⟩
  · intro habs
    show ({ s with config := s.config.erase id } : ServerState U D) = s
    rw [erase_absent _ _ habs]
  · have : (s.config.erase id).erase id = s.config.erase id :=
      erase_absent _ _ (AList.lookup_erase _ _)
    simp [this]
  · simp [getEndpoint, extract_valid _ hid, AList.lookup_erase]

/-- C7 at a concrete input: deleting `svc-a` from the store that holds it. -/
theorem deleteEndpoint_spec_witness :
    (deleteEndpoint
        ({ config := AList.insert "svc-a" (svcA 3) ∅, disk := Option.none } :
          ServerState String String)
        ("/endpoints/" ++ "svc-a")).1 = writeHeader StatusNoContent ∧
    (getEndpoint demoCodec
        (deleteEndpoint
          ({ config := AList.insert "svc-a" (svcA 3) ∅, disk := Option.none } :
            ServerState String String)
          ("/endpoints/" ++ "svc-a")).2
        ("/endpoints/" ++ "svc-a")).1 = writeHeader StatusNotFound :=
  have h := deleteEndpoint_spec demoCodec
    ({ config := AList.insert "svc-a" (svcA 3) ∅, disk := Option.none } :
      ServerState String String)
    "svc-a" ((groupMatches_iff "svc-a").1 (by decide))
  ⟨h.1, h.2.2.2.2.2⟩

/-- C5, as stated, fails: in the scenario a second POST of `svc-a` to the
collection path `/endpoints/`, with `failAfter` changed to 5, is answered 400,
not 204, and the store keeps the record with `failAfter` 3. -/
theorem postEndpoint_collection_replace_rejected :
    ((postEndpoint demoCodec (inOrder _ _) Faults.none (emptyState _ _)
        "/endpoints/" bodyA3).2.config.lookup "svc-a").isSome = true ∧
    (postEndpoint demoCodec (inOrder _ _) Faults.none
        (postEndpoint demoCodec (inOrder _ _) Faults.none (emptyState _ _)
          "/endpoints/" bodyA3).2
        "/endpoints/" bodyA5).1.status = StatusBadRequest ∧
    (postEndpoint demoCodec (inOrder _ _) Faults.none
        (postEndpoint demoCodec (inOrder _ _) Faults.none (emptyState _ _)
          "/endpoints/" bodyA3).2
        "/endpoints/" bodyA5).1.status ≠ StatusNoContent ∧
    (postEndpoint demoCodec (inOrder _ _) Faults.none
        (postEndpoint demoCodec (inOrder _ _) Faults.none (emptyState _ _)
          "/endpoints/" bodyA3).2
        "/endpoints/" bodyA5).2.config.lookup "svc-a" = some (svcA 3) := by
  decide

/-- C5, amended: POST to the collection path `/endpoints/`. For every store and
every body that parses to a record `e`, with nothing failing in the file
system: if the identifier of `e` is absent the answer is 201, the store then
maps the identifier to `e` and every other identifier is as before; if it is
present the answer is 400 and map and file stay as they were. -/
theorem postEndpoint_collection_path {U D : Type} (c : Codec U D) (range : RangeOrder U D)
    (s : ServerState U D) (body : String) (e : Endpoint U D)
    (hbody : c.EndpointFromJSON body = some e) :
    (s.config.lookup e.Identifier = Option.none →
      (postEndpoint c range Faults.none s "/endpoints/" body).1 = writeHeader StatusCreated ∧
      (postEndpoint c range Faults.none s "/endpoints/" body).2.config.lookup e.Identifier =
        some e ∧
      ∀ k, k ≠ e.Identifier →
        (postEndpoint c range Faults.none s "/endpoints/" body).2.config.lookup k =
          s.config.lookup k) ∧
    ((s.config.lookup e.Identifier).isSome = true →
      postEndpoint c range Faults.none s "/endpoints/" body =
        (writeHeader StatusBadRequest, s)) := by
  constructor
  · intro habs
    have hpost : postEndpoint c range Faults.none s "/endpoints/" body =
        postCommit c range Faults.none s e StatusCreated := by
      simp [postEndpoint, postCheck_absent c s.config _ body e hbody habs]
    rw [hpost, postCommit_none]
    exact ⟨rfl, AList.lookup_insert _, fun k hk => AList.lookup_insert_ne hk⟩
  · intro hpres
    obtain ⟨msg, hmsg⟩ := extract_collection
    simp [postEndpoint, postCheck_present c s.config _ body e hbody hpres, hmsg]

/-- C5, amended, at concrete inputs: the first POST of the scenario creates
`svc-a`, the second one to the same path is answered 400. -/
theorem postEndpoint_collection_path_witness :
    (postEndpoint demoCodec (inOrder _ _) Faults.none (emptyState _ _)
        "/endpoints/" bodyA3).1 = writeHeader StatusCreated ∧
    postEndpoint demoCodec (inOrder _ _) Faults.none
        ({ config := AList.insert "svc-a" (svcA 3) ∅, disk := Option.none } :
          ServerState String String)
        "/endpoints/" bodyA5 =
      (writeHeader StatusBadRequest,
        { config := AList.insert "svc-a" (svcA 3) ∅, disk := Option.none }) :=
  ⟨((postEndpoint_collection_path demoCodec (inOrder _ _) (emptyState _ _) bodyA3 (svcA 3)
      (by decide)).1 (by decide)).1,
    (postEndpoint_collection_path demoCodec (inOrder _ _)
      ({ config := AList.insert "svc-a" (svcA 3) ∅, disk := Option.none } :
        ServerState String String)
      bodyA5 (svcA 5) (by decide)).2 (by decide)⟩

/-- C6, as stated, fails: on the empty store a POST to `/endpoints/svc-b`
whose body carries the identifier `svc-a` is answered 201, not 400, and the
store then holds `svc-a`. -/
theorem postEndpoint_mismatch_created :
    extractEndpointIdentifier "/endpoints/svc-b" = .ok "svc-b" ∧
    (svcA 3).Identifier ≠ "svc-b" ∧
    (postEndpoint demoCodec (inOrder _ _) Faults.none (emptyState _ _)
        "/endpoints/svc-b" bodyA3).1.status = StatusCreated ∧
    (postEndpoint demoCodec (inOrder _ _) Faults.none (emptyState _ _)
        "/endpoints/svc-b" bodyA3).1.status ≠ StatusBadRequest ∧
    (postEndpoint demoCodec (inOrder _ _) Faults.none (emptyState _ _)
        "/endpoints/svc-b" bodyA3).2.config.lookup "svc-a" = some (svcA 3) := by
  decide

/-- C6, amended: identifier mismatch. For every store and every POST to
`/endpoints/p`, `p` a valid identifier, whose body parses to a record `e` with
an identifier different from `p`: if the identifier of `e` is already in the
store, the answer is 400 and map and file stay as they were (whatever the file
system does); if it is not yet in the store, the path is not consulted: with
nothing failing the answer is 201 and the store maps the identifier of `e` to
`e`. -/
theorem postEndpoint_mismatch {U D : Type} (c : Codec U D) (range : RangeOrder U D)
    (faults : Faults) (s : ServerState U D) (p body : String) (e : Endpoint U D)
    (hp : ValidIdentifier p) (hbody : c.EndpointFromJSON body = some e)
    (hne : e.Identifier ≠ p) :
    ((s.config.lookup e.Identifier).isSome = true →
      postEndpoint c range faults s ("/endpoints/" ++ p) body =
        (writeHeader StatusBadRequest, s)) ∧
    (s.config.lookup e.Identifier = Option.none →
      (postEndpoint c range Faults.none s ("/endpoints/" ++ p) body).1 =
        writeHeader StatusCreated ∧
      (postEndpoint c range Faults.none s ("/endpoints/" ++ p) body).2.config.lookup
        e.Identifier = some e) := by
  constructor
  · intro hpres
    simp [postEndpoint, postCheck_present c s.config _ body e hbody hpres,
      extract_valid _ hp, Ne.symm hne]
  · intro habs
    have hpost : postEndpoint c range Faults.none s ("/endpoints/" ++ p) body =
        postCommit c range Faults.none s e StatusCreated := by
      simp [postEndpoint, postCheck_absent c s.config _ body e hbody habs]
    rw [hpost, postCommit_none]
    exact ⟨rfl, AList.lookup_insert _⟩

/-- C6, amended, at a concrete input: `svc-a` is in the store and the POST of
its record goes to `/endpoints/svc-b`. -/
theorem postEndpoint_mismatch_witness :
    postEndpoint demoCodec (inOrder _ _) Faults.none
        ({ config := AList.insert "svc-a" (svcA 3) ∅, disk := Option.none } :
          ServerState String String)
        ("/endpoints/" ++ "svc-b") bodyA5 =
      (writeHeader StatusBadRequest,
        { config := AList.insert "svc-a" (svcA 3) ∅, disk := Option.none }) :=
  (postEndpoint_mismatch demoCodec (inOrder _ _) Faults.none
    ({ config := AList.insert "svc-a" (svcA 3) ∅, disk := Option.none } :
      ServerState String String)
    "svc-b" bodyA5 (svcA 5) ((groupMatches_iff "svc-b").1 (by decide)) (by decide)
    (by decide)).1 (by decide)

/-- C9: malformed requests change nothing. A GET or a DELETE whose URL is not
`/endpoints/id` for a valid `id`, and a POST whose body does not parse, are
answered 400; and whenever a request, of any method and to either handler, is
answered 400, map and file are afterwards what they were before. -/
theorem malformed_request_no_change {U D : Type} (c : Codec U D) (range : RangeOrder U D)
    (faults : Faults) (s : ServerState U D) (r : Request) :
    ((¬ ∃ id, r.url = "/endpoints/" ++ id ∧ ValidIdentifier id) →
      getEndpoint c s r.url = (writeHeader StatusBadRequest, s) ∧
      deleteEndpoint s r.url = (writeHeader StatusBadRequest, s)) ∧
    (c.EndpointFromJSON r.body = Option.none →
      postEndpoint c range faults s r.url r.body = (writeHeader StatusBadRequest, s)) ∧
    ((endpointHandler c range faults s r).1.status = StatusBadRequest →
      (endpointHandler c range faults s r).2 = s) ∧
    ((endpointsHandler c range s r).1.status = StatusBadRequest →
      (endpointsHandler c range s r).2 = s) := by
  refine ⟨?_, ?_, ?_, ?_⟩
  · intro hbad
    obtain ⟨msg, hmsg⟩ := (extract_error_iff r.url).2 hbad
    simp [getEndpoint, deleteEndpoint, hmsg]
  · intro hbody
    simp [postEndpoint, postCheck_unparsable c s.config r.url r.body hbody]
  · unfold endpointHandler
    split_ifs
    · intro _; exact getEndpoint_state c s r.url
    · exact postEndpoint_badRequest c range faults s r.url r.body
    · exact deleteEndpoint_badRequest s r.url
    · intro _; rfl
  · intro _
    exact getEndpoints_state c range s r.method

/-- C9 at concrete inputs: `GET /endpoints/Bad_ID`, `DELETE /endpoints/Bad_ID`
and a POST with an unparsable body, on the store holding `svc-a`. -/
theorem malformed_request_no_change_witness :
    getEndpoint demoCodec
        ({ config := AList.insert "svc-a" (svcA 3) ∅, disk := some "kept\n" } :
          ServerState String String)
        "/endpoints/Bad_ID" =
      (writeHeader StatusBadRequest,
        { config := AList.insert "svc-a" (svcA 3) ∅, disk := some "kept\n" }) ∧
    deleteEndpoint
        ({ config := AList.insert "svc-a" (svcA 3) ∅, disk := some "kept\n" } :
          ServerState String String)
        "/endpoints/Bad_ID" =
      (writeHeader StatusBadRequest,
        { config := AList.insert "svc-a" (svcA 3) ∅, disk := some "kept\n" }) ∧
    postEndpoint demoCodec (inOrder _ _) Faults.none
        ({ config := AList.insert "svc-a" (svcA 3) ∅, disk := some "kept\n" } :
          ServerState String String)
        "/endpoints/svc-a" "not json" =
      (writeHeader StatusBadRequest,
        { config := AList.insert "svc-a" (svcA 3) ∅, disk := some "kept\n" }) :=
  have h := malformed_request_no_change demoCodec (inOrder _ _) Faults.none
    ({ config := AList.insert "svc-a" (svcA 3) ∅, disk := some "kept\n" } :
      ServerState String String)
    { method := "GET", url := "/endpoints/Bad_ID", body := "not json" }
  have hbad := h.1 ((extract_error_iff "/endpoints/Bad_ID").1 ⟨_, by
    rw [extractEndpointIdentifier_eq]; exact if_neg (by decide)⟩)
  have h2 := (malformed_request_no_change demoCodec (inOrder _ _) Faults.none
    ({ config := AList.insert "svc-a" (svcA 3) ∅, disk := some "kept\n" } :
      ServerState String String)
    { method := "POST", url := "/endpoints/svc-a", body := "not json" }).2.1 (by decide)
  ⟨hbad.1, hbad.2, h2⟩

/-- C3 at its failing input: the store holds `svc-a` and the file holds exactly
its row; `DELETE /endpoints/svc-a` answers 204 and removes the record from the
map, but the file is left as it was: it still holds the row of `svc-a`, so
file and map no longer agree and loading the file brings `svc-a` back. -/
theorem deleteEndpoint_leaves_file :
    FileHoldsMap demoCodec
      ({ config := AList.insert "svc-a" (svcA 3) ∅,
         disk := some "svc-a,http://x/,GET,200,30s,3\n" } : ServerState String String) ∧
    (deleteEndpoint
        ({ config := AList.insert "svc-a" (svcA 3) ∅,
           disk := some "svc-a,http://x/,GET,200,30s,3\n" } : ServerState String String)
        "/endpoints/svc-a").1 = writeHeader StatusNoContent ∧
    (deleteEndpoint
        ({ config := AList.insert "svc-a" (svcA 3) ∅,
           disk := some "svc-a,http://x/,GET,200,30s,3\n" } : ServerState String String)
        "/endpoints/svc-a").2.config.lookup "svc-a" = Option.none ∧
    (deleteEndpoint
        ({ config := AList.insert "svc-a" (svcA 3) ∅,
           disk := some "svc-a,http://x/,GET,200,30s,3\n" } : ServerState String String)
        "/endpoints/svc-a").2.disk = some "svc-a,http://x/,GET,200,30s,3\n" ∧
    ¬ FileHoldsMap demoCodec
      (deleteEndpoint
        ({ config := AList.insert "svc-a" (svcA 3) ∅,
           disk := some "svc-a,http://x/,GET,200,30s,3\n" } : ServerState String String)
        "/endpoints/svc-a").2 ∧
    (mustReadConfig demoCodec
      (deleteEndpoint
        ({ config := AList.insert "svc-a" (svcA 3) ∅,
           disk := some "svc-a,http://x/,GET,200,30s,3\n" } : ServerState String String)
        "/endpoints/svc-a").2.disk).map (fun loaded => loaded.lookup "svc-a") =
      some (some (svcA 3)) := by
  unfold FileHoldsMap
  decide

/-- C8 at its failing input: a POST of `svc-a` to the empty store while the
final flush of the rows fails (and leaves the truncated file empty). The
function `writeConfig` returns no error, so the answer is 201, not 500; the
map holds the record and the file does not. -/
theorem postEndpoint_flush_failure_unreported :
    (writeConfig demoCodec (inOrder _ _)
        { create := false, write := Option.none, flush := true, onDisk := "" }
        (AList.insert "svc-a" (svcA 3) ∅) Option.none).2 = Option.none ∧
    (postEndpoint demoCodec (inOrder _ _)
        { create := false, write := Option.none, flush := true, onDisk := "" }
        (emptyState _ _) "/endpoints/svc-a" bodyA3).1 = writeHeader StatusCreated ∧
    (postEndpoint demoCodec (inOrder _ _)
        { create := false, write := Option.none, flush := true, onDisk := "" }
        (emptyState _ _) "/endpoints/svc-a" bodyA3).1.status ≠ StatusInternalServerError ∧
    (postEndpoint demoCodec (inOrder _ _)
        { create := false, write := Option.none, flush := true, onDisk := "" }
        (emptyState _ _) "/endpoints/svc-a" bodyA3).2.config.lookup "svc-a" =
      some (svcA 3) ∧
    (postEndpoint demoCodec (inOrder _ _)
        { create := false, write := Option.none, flush := true, onDisk := "" }
        (emptyState _ _) "/endpoints/svc-a" bodyA3).2.disk = some "" := by
  decide

/-- C10 at its failing input: two POSTs of `svc-a` to `/endpoints/svc-a` on the
empty store, scheduled so that both lookups (under the read lock) come before
both insertions (under the write lock). Both requests are answered 201. -/
theorem concurrent_posts_both_created :
    ((runPosts demoCodec (inOrder _ _) Faults.none [false, true, false, true]
        (emptyState _ _, .start "/endpoints/svc-a" bodyA3,
          .start "/endpoints/svc-a" bodyA5)).2.1.response =
      some (writeHeader StatusCreated)) ∧
    ((runPosts demoCodec (inOrder _ _) Faults.none [false, true, false, true]
        (emptyState _ _, .start "/endpoints/svc-a" bodyA3,
          .start "/endpoints/svc-a" bodyA5)).2.2.response =
      some (writeHeader StatusCreated)) ∧
    ((runPosts demoCodec (inOrder _ _) Faults.none [false, true, false, true]
        (emptyState _ _, .start "/endpoints/svc-a" bodyA3,
          .start "/endpoints/svc-a" bodyA5)).1.config.lookup "svc-a" =
      some (svcA 5)) := by
  decide

/-- When one POST finishes before the other starts, the first is answered 201
and the second 204, in either order. -/
theorem sequential_posts_created_replaced :
    ((runPosts demoCodec (inOrder _ _) Faults.none [false, false, true, true]
        (emptyState _ _, .start "/endpoints/svc-a" bodyA3,
          .start "/endpoints/svc-a" bodyA5)).2.1.response =
      some (writeHeader StatusCreated)) ∧
    ((runPosts demoCodec (inOrder _ _) Faults.none [false, false, true, true]
        (emptyState _ _, .start "/endpoints/svc-a" bodyA3,
          .start "/endpoints/svc-a" bodyA5)).2.2.response =
      some (writeHeader StatusNoContent)) ∧
    ((runPosts demoCodec (inOrder _ _) Faults.none [true, true, false, false]
        (emptyState _ _, .start "/endpoints/svc-a" bodyA3,
          .start "/endpoints/svc-a" bodyA5)).2.1.response =
      some (writeHeader StatusNoContent)) ∧
    ((runPosts demoCodec (inOrder _ _) Faults.none [true, true, false, false]
        (emptyState _ _, .start "/endpoints/svc-a" bodyA3,
          .start "/endpoints/svc-a" bodyA5)).2.2.response =
      some (writeHeader StatusCreated)) := by
  decide

end Meow
